import Mathlib

/-!
Shallow embedding of the Sokoban-prototype world-state and undo engine
(`src/main.rs`) together with proofs about its specified properties.

Modelling conventions:
* Machine integers (`i32`, `usize`) are modelled as `Int`/`Nat`; none of the
  verified properties exercise wrap-around behaviour.
* Rust `panic!`/`unwrap()` failures are modelled by returning `none`.
* Trait objects `Box<dyn GameObject>` are modelled by the record
  `GameObject` holding exactly the data every variant exposes through the
  trait (id, position, layer, pushability).  `Player`, `Block::new_block`
  and `Block::new_wall` are the three constructors.  The global id counter
  (`new_id`) is modelled by passing ids explicitly.
* `Vec` stacks keep Rust's element order (index 0 = bottom, push/pop at the
  end of the list).  The `VecDeque` in `UndoStack` and the `to_check`
  worklist are used purely as stacks, and are modelled with the list head
  as the front/top.
* The `*mut Player` back-pointer in `WorldMap` aliases the player object
  owned by the grid; dereferencing it is modelled as looking the player's
  id up in the grid (`findById`).  A dangling pointer read is `none`.
-/

set_option maxHeartbeats 1600000

namespace Sokoban

/-- The three layers of the world map (source `enum Layer`). -/
inductive Layer where
  | Floor
  | Player
  | Solid
deriving DecidableEq, Repr

/-- Source `Layer::index`. -/
def Layer.index : Layer → Nat
  | .Floor => 0
  | .Player => 1
  | .Solid => 2

/-- Data of a `Box<dyn GameObject>`: id, position, layer, pushability.
Colours and drawing are irrelevant to the logic and omitted. -/
structure GameObject where
  id : Nat
  x : Int
  y : Int
  layer : Layer
  pushable : Bool
deriving DecidableEq, Repr

/-- Source `Player::new` (layer `Solid`, pushable). The fresh id produced by
`new_id()` is passed explicitly. -/
def Player.new (i : Nat) (x y : Int) : GameObject :=
  ⟨i, x, y, Layer.Solid, true⟩

/-- Source `Block::new_block`: a pushable crate on the `Solid` layer. -/
def Block.new_block (i : Nat) (x y : Int) : GameObject :=
  ⟨i, x, y, Layer.Solid, true⟩

/-- Source `Block::new_wall`: an immovable wall on the `Solid` layer. -/
def Block.new_wall (i : Nat) (x y : Int) : GameObject :=
  ⟨i, x, y, Layer.Solid, false⟩

/-- The `Delta` trait objects: `MotionDelta` (post-move position plus
displacement), `DeletionDelta` (owns the removed object; `None` after it
has been reverted once) and `CreationDelta` (id, position and layer at
creation time). -/
inductive Delta where
  | motion (i : Nat) (x y : Int) (layer : Layer) (dx dy : Int)
  | deletion (object : Option GameObject)
  | creation (i : Nat) (pos : Int × Int) (layer : Layer)
deriving DecidableEq, Repr

/-- Source `DeltaFrame`: the deltas recorded during one logic tick. -/
structure DeltaFrame where
  deltas : List Delta
deriving DecidableEq, Repr

/-- Source `DeltaFrame::new`. -/
def DeltaFrame.new : DeltaFrame := ⟨[]⟩

/-- Source `DeltaFrame::push` (Vec push at the end). -/
def DeltaFrame.push (f : DeltaFrame) (d : Delta) : DeltaFrame :=
  ⟨f.deltas ++ [d]⟩

/-- Source `DeltaFrame::trivial`. -/
def DeltaFrame.trivial (f : DeltaFrame) : Bool :=
  f.deltas.isEmpty

/-- Source `shift_pos` (identical for `Player` and `Block`): displace the
object and append a `MotionDelta` recording its id, its *post-move*
position, its layer and the displacement. -/
def GameObject.shift_pos (o : GameObject) (d : Int × Int) (frame : DeltaFrame) :
    GameObject × DeltaFrame :=
  let o' : GameObject := { o with x := o.x + d.1, y := o.y + d.2 }
  (o', frame.push (.motion o.id o'.x o'.y o.layer d.1 d.2))

/-- Source `set_pos`: overwrite the position, recording nothing. -/
def GameObject.set_pos (o : GameObject) (p : Int × Int) : GameObject :=
  { o with x := p.1, y := p.2 }

/-- Source `MapCell`: one stack of objects per layer
(`layers: [Vec<Box<dyn GameObject>>; 3]`, indexed by `Layer::index`). -/
structure MapCell where
  floorObjs : List GameObject
  playerObjs : List GameObject
  solidObjs : List GameObject
deriving DecidableEq, Repr

/-- Source `MapCell::new`. -/
def MapCell.new : MapCell := ⟨[], [], []⟩

/-- Read the stack of one layer (`self.layers[Layer::index(layer)]`). -/
def MapCell.getL (c : MapCell) : Layer → List GameObject
  | .Floor => c.floorObjs
  | .Player => c.playerObjs
  | .Solid => c.solidObjs

/-- Replace the stack of one layer. -/
def MapCell.setL (c : MapCell) : Layer → List GameObject → MapCell
  | .Floor, l => { c with floorObjs := l }
  | .Player, l => { c with playerObjs := l }
  | .Solid, l => { c with solidObjs := l }

/-- Source `MapCell::view`: the top (most recently pushed) object of a
layer's stack, without removing it. -/
def MapCell.view (c : MapCell) (layer : Layer) : Option GameObject :=
  (c.getL layer).getLast?

/-- Source `MapCell::take`: pop the top object of a layer's stack. -/
def MapCell.take (c : MapCell) (layer : Layer) : Option GameObject × MapCell :=
  ((c.getL layer).getLast?, c.setL layer (c.getL layer).dropLast)

/-- The linear search-and-remove loop shared by `MapCell::take_id` and
`MapCell::delete_id`: remove the object with the matching id at the lowest
index, if any. -/
def removeById (l : List GameObject) (i : Nat) : Option GameObject × List GameObject :=
  match l with
  | [] => (none, [])
  | o :: rest =>
    if o.id = i then (some o, rest)
    else ((removeById rest i).1, o :: (removeById rest i).2)

/-- Source `MapCell::take_id`. -/
def MapCell.take_id (c : MapCell) (layer : Layer) (i : Nat) :
    Option GameObject × MapCell :=
  let r := removeById (c.getL layer) i
  (r.1, c.setL layer r.2)

/-- Source `MapCell::delete`: pop the top object into a `DeletionDelta`. -/
def MapCell.delete (c : MapCell) (layer : Layer) (frame : DeltaFrame) :
    Bool × MapCell × DeltaFrame :=
  match (c.getL layer).getLast? with
  | some o =>
    (true, c.setL layer (c.getL layer).dropLast, frame.push (.deletion (some o)))
  | none => (false, c, frame)

/-- Source `MapCell::delete_id`. -/
def MapCell.delete_id (c : MapCell) (layer : Layer) (i : Nat) (frame : DeltaFrame) :
    Bool × MapCell × DeltaFrame :=
  match removeById (c.getL layer) i with
  | (some o, rest) => (true, c.setL layer rest, frame.push (.deletion (some o)))
  | (none, _) => (false, c, frame)

/-- Source `MapCell::put`: record a `CreationDelta`, then push the object
onto its layer's stack. -/
def MapCell.put (c : MapCell) (o : GameObject) (frame : DeltaFrame) :
    MapCell × DeltaFrame :=
  (c.setL o.layer (c.getL o.layer ++ [o]), frame.push (.creation o.id (o.x, o.y) o.layer))

/-- Source `MapCell::put_quiet`: push with no delta recorded. -/
def MapCell.put_quiet (c : MapCell) (o : GameObject) : MapCell :=
  c.setL o.layer (c.getL o.layer ++ [o])

/-- All objects stored in a cell, in layer-index order. -/
def MapCell.allObjs (c : MapCell) : List GameObject :=
  c.floorObjs ++ c.playerObjs ++ c.solidObjs

/-- Source `WorldMap`: the `width × height` grid (`map[x][y]`), plus the
player back-pointer modelled as the player's id. -/
structure WorldMap where
  width : Int
  height : Int
  map : List (List MapCell)
  playerId : Nat
deriving DecidableEq, Repr

/-- Source `WorldMap::new`: a grid of empty cells. -/
def WorldMap.new (width height : Int) (playerId : Nat) : WorldMap :=
  { width, height,
    map := List.replicate width.toNat (List.replicate height.toNat MapCell.new),
    playerId }

/-- Source `WorldMap::invalid`. -/
def WorldMap.invalid (m : WorldMap) (x y : Int) : Bool :=
  decide (x < 0) || decide (x ≥ m.width) || decide (y < 0) || decide (y ≥ m.height)

/-- `self.map[x][y]` (only meaningful for valid coordinates). -/
def WorldMap.getCell (m : WorldMap) (x y : Int) : MapCell :=
  (m.map.getD x.toNat []).getD y.toNat MapCell.new

/-- Write back `self.map[x][y]` (only meaningful for valid coordinates). -/
def WorldMap.setCell (m : WorldMap) (x y : Int) (c : MapCell) : WorldMap :=
  { m with map := m.map.set x.toNat ((m.map.getD x.toNat []).set y.toNat c) }

/-- The objects of one grid column. -/
def colObjs (col : List MapCell) : List GameObject :=
  (col.map MapCell.allObjs).flatten

/-- Every object currently owned by the grid. -/
def WorldMap.objList (m : WorldMap) : List GameObject :=
  (m.map.map colObjs).flatten

/-- The multiset of objects owned by the grid: the grid contents up to
stack order inside cells. -/
def WorldMap.objM (m : WorldMap) : Multiset GameObject :=
  (m.objList : Multiset GameObject)

/-- Look an object up by id anywhere in the grid. -/
def WorldMap.findById (m : WorldMap) (i : Nat) : Option GameObject :=
  m.objList.find? (fun o => o.id == i)

/-- The id-to-position mapping of the grid. -/
def WorldMap.idPos (m : WorldMap) (i : Nat) : Option (Int × Int) :=
  (m.findById i).map (fun o => (o.x, o.y))

/-- Source `WorldMap::get_player_pos`: read the player's position through
the back-pointer (modelled as id lookup; `none` = dangling pointer). -/
def WorldMap.get_player_pos (m : WorldMap) : Option (Int × Int) :=
  (m.findById m.playerId).map (fun o => (o.x, o.y))

/-- Source `WorldMap::get_player_id`. -/
def WorldMap.get_player_id (m : WorldMap) : Nat := m.playerId

/-- Source `WorldMap::view`. -/
def WorldMap.view (m : WorldMap) (x y : Int) (layer : Layer) : Option GameObject :=
  if m.invalid x y then none else (m.getCell x y).view layer

/-- Source `WorldMap::take`. -/
def WorldMap.take (m : WorldMap) (x y : Int) (layer : Layer) :
    Option GameObject × WorldMap :=
  if m.invalid x y then (none, m)
  else
    let r := (m.getCell x y).take layer
    (r.1, m.setCell x y r.2)

/-- Source `WorldMap::take_id`. -/
def WorldMap.take_id (m : WorldMap) (x y : Int) (layer : Layer) (i : Nat) :
    Option GameObject × WorldMap :=
  if m.invalid x y then (none, m)
  else
    let r := (m.getCell x y).take_id layer i
    (r.1, m.setCell x y r.2)

/-- Source `WorldMap::delete`. -/
def WorldMap.delete (m : WorldMap) (x y : Int) (layer : Layer) (frame : DeltaFrame) :
    Bool × WorldMap × DeltaFrame :=
  if m.invalid x y then (false, m, frame)
  else
    let r := (m.getCell x y).delete layer frame
    (r.1, m.setCell x y r.2.1, r.2.2)

/-- Source `WorldMap::delete_id`. -/
def WorldMap.delete_id (m : WorldMap) (x y : Int) (layer : Layer) (i : Nat)
    (frame : DeltaFrame) : Bool × WorldMap × DeltaFrame :=
  if m.invalid x y then (false, m, frame)
  else
    let r := (m.getCell x y).delete_id layer i frame
    (r.1, m.setCell x y r.2.1, r.2.2)

/-- Source `WorldMap::put` (out-of-bounds placement panics: `none`). -/
def WorldMap.put (m : WorldMap) (o : GameObject) (frame : DeltaFrame) :
    Option (WorldMap × DeltaFrame) :=
  if m.invalid o.x o.y then none
  else
    let r := (m.getCell o.x o.y).put o frame
    some (m.setCell o.x o.y r.1, r.2)

/-- Source `WorldMap::put_quiet` (out-of-bounds placement panics: `none`). -/
def WorldMap.put_quiet (m : WorldMap) (o : GameObject) : Option WorldMap :=
  if m.invalid o.x o.y then none
  else some (m.setCell o.x o.y ((m.getCell o.x o.y).put_quiet o))

/-- Source `Delta::revert` for the three variants.  `MotionDelta::revert`
looks the object up by id at its recorded post-move position (`unwrap`
panic = `none`), shifts it back by the inverse displacement (logging into
a fresh, discarded frame) and reinserts it quietly.  `DeletionDelta::revert`
reinserts the owned object and empties itself.  `CreationDelta::revert`
takes whatever object is on top of the recorded position/layer slot. -/
def Delta.revert : Delta → WorldMap → Option (Delta × WorldMap)
  | .motion i x y layer dx dy, m =>
    match m.take_id x y layer i with
    | (none, _) => none
    | (some o, m₁) =>
      let r := o.shift_pos (-dx, -dy) DeltaFrame.new
      match m₁.put_quiet r.1 with
      | none => none
      | some m₂ => some (.motion i x y layer dx dy, m₂)
  | .deletion obj, m =>
    match obj with
    | some o =>
      match m.put_quiet o with
      | none => none
      | some m₁ => some (.deletion none, m₁)
    | none => some (.deletion none, m)
  | .creation i pos layer, m =>
    some (.creation i pos layer, (m.take pos.1 pos.2 layer).2)

/-- `DeltaFrame::revert` iterates the recorded deltas in insertion order. -/
def revertDeltas : List Delta → WorldMap → Option (List Delta × WorldMap)
  | [], m => some ([], m)
  | d :: rest, m =>
    match d.revert m with
    | none => none
    | some (d', m₁) =>
      match revertDeltas rest m₁ with
      | none => none
      | some (rest', m₂) => some (d' :: rest', m₂)

/-- Source `DeltaFrame::revert`. -/
def DeltaFrame.revert (f : DeltaFrame) (m : WorldMap) :
    Option (DeltaFrame × WorldMap) :=
  match revertDeltas f.deltas m with
  | none => none
  | some (ds, m') => some (⟨ds⟩, m')

/-- Source `UndoStack`: `VecDeque` front = list head = most recent frame. -/
structure UndoStack where
  stack : List DeltaFrame
  max_depth : Nat
  size : Nat
deriving DecidableEq, Repr

/-- Source `UndoStack::new`. -/
def UndoStack.new (max_depth : Nat) : UndoStack :=
  ⟨[], max_depth, 0⟩

/-- Source `UndoStack::push`: at capacity, drop the back (oldest frame)
and push at the front without changing `size`. -/
def UndoStack.push (s : UndoStack) (delta : DeltaFrame) : UndoStack :=
  if s.size = s.max_depth then
    { s with stack := delta :: s.stack.dropLast }
  else
    { s with stack := delta :: s.stack, size := s.size + 1 }

/-- Source `UndoStack::pop`: if `size > 0`, pop the front frame, revert it
against the map and discard it; otherwise do nothing.  The `unwrap` on
`pop_front` and any panic inside the reversion are `none`. -/
def UndoStack.pop (s : UndoStack) (m : WorldMap) : Option (UndoStack × WorldMap) :=
  if s.size > 0 then
    match s.stack with
    | [] => none
    | f :: rest =>
      match f.revert m with
      | none => none
      | some (_, m') => some ({ s with stack := rest, size := s.size - 1 }, m')
  else some (s, m)

/-- `to_move.contains_key(&p)` on the association-list model of the
`HashMap<(i32,i32), usize>`. -/
def containsKey (tm : List ((Int × Int) × Nat)) (p : Int × Int) : Bool :=
  tm.any (fun e => decide (e.1 = p))

/-- The `while !to_check.is_empty()` loop of `WorldMap::move_solid`,
with explicit fuel (see `WorldMap.move_solid` for why the fuel supplied
there can never run out).  `to_move` keeps HashMap entries in insertion
order; `to_check`'s head is the top of the Rust `Vec` stack.  Returns
`some (true, to_move)` when the closure completes, `some (false, to_move)`
when the move hits the boundary or a non-pushable object. -/
def WorldMap.moveSolidCheck (m : WorldMap) (dx dy : Int) :
    Nat → List ((Int × Int) × Nat) → List (Int × Int) →
    Option (Bool × List ((Int × Int) × Nat))
  | 0, _, _ => none
  | fuel + 1, to_move, to_check =>
    match to_check with
    | [] => some (true, to_move)
    | (x, y) :: rest =>
      if containsKey to_move (x + dx, y + dy) then
        m.moveSolidCheck dx dy fuel to_move rest
      else if m.invalid (x + dx) (y + dy) then
        some (false, to_move)
      else
        match m.view (x + dx) (y + dy) Layer.Solid with
        | some o =>
          if o.pushable then
            m.moveSolidCheck dx dy fuel
              (to_move ++ [((x + dx, y + dy), o.id)]) ((x + dx, y + dy) :: rest)
          else
            some (false, to_move)
        | none => m.moveSolidCheck dx dy fuel to_move rest

/-- The commit loop of `WorldMap::move_solid`: for each `(position, id)`
pair take the object by id from its old cell, shift it (recording a
`MotionDelta` into the frame) and reinsert it quietly.  A failing
`unwrap` or an out-of-bounds reinsertion is `none`. -/
def WorldMap.moveSolidCommit (dx dy : Int) :
    List ((Int × Int) × Nat) → WorldMap → DeltaFrame →
    Option (WorldMap × DeltaFrame)
  | [], m, frame => some (m, frame)
  | ((x, y), i) :: rest, m, frame =>
    match m.take_id x y Layer.Solid i with
    | (none, _) => none
    | (some o, m₁) =>
      let r := o.shift_pos (dx, dy) frame
      match m₁.put_quiet r.1 with
      | none => none
      | some m₂ => WorldMap.moveSolidCommit dx dy rest m₂ r.2

/-- Source `WorldMap::move_solid`: seed `to_move`/`to_check` with the
player's position and id, run the closure check, and on success commit
the move.  The source's `while` loop has no explicit bound; each
iteration either shrinks `to_check` or inserts a fresh in-bounds key into
`to_move`, so it runs at most `width*height + 2` iterations — that value
is supplied as fuel, making the model total. -/
def WorldMap.move_solid (m : WorldMap) (d : Int × Int) (frame : DeltaFrame) :
    Option (Bool × WorldMap × DeltaFrame) :=
  match m.get_player_pos with
  | none => none
  | some p =>
    let to_move : List ((Int × Int) × Nat) := [(p, m.get_player_id)]
    let fuel := m.width.toNat * m.height.toNat + 2
    match m.moveSolidCheck d.1 d.2 fuel to_move [p] with
    | none => none
    | some (false, _) => some (false, m, frame)
    | some (true, tm) =>
      match WorldMap.moveSolidCommit d.1 d.2 tm m frame with
      | none => none
      | some (m', frame') => some (true, m', frame')

/-- One tick's move-and-push step of `main`'s loop, restricted to the part
the undo properties depend on: attempt a move with a fresh frame and push
the frame when it is non-trivial. -/
def runMoves : List (Int × Int) → WorldMap → UndoStack →
    Option (WorldMap × UndoStack)
  | [], m, s => some (m, s)
  | d :: rest, m, s =>
    match m.move_solid d DeltaFrame.new with
    | some (true, m', f') =>
      runMoves rest m' (if f'.trivial then s else s.push f')
    | _ => none

/-- `n` undo requests (`UndoStack::pop`) in sequence. -/
def runUndos : Nat → WorldMap → UndoStack → Option (WorldMap × UndoStack)
  | 0, m, s => some (m, s)
  | n + 1, m, s =>
    match s.pop m with
    | none => none
    | some (s', m') => runUndos n m' s'

/-- Pure displacement of an object (the position effect of `shift_pos`). -/
def shiftObj (d : Int × Int) (o : GameObject) : GameObject :=
  { o with x := o.x + d.1, y := o.y + d.2 }

/-- The `MotionDelta` that `shift_pos` records for a `to_move` entry. -/
def motionOf (d : Int × Int) (e : (Int × Int) × Nat) : Delta :=
  .motion e.2 (e.1.1 + d.1) (e.1.2 + d.2) Layer.Solid d.1 d.2

/-- The grid's backing store has the advertised `width × height` shape. -/
def WorldMap.shape (m : WorldMap) : Prop :=
  m.map.length = m.width.toNat ∧ ∀ col ∈ m.map, col.length = m.height.toNat

/-- Every object in the cell at grid coordinates `(i, j)` carries exactly
those coordinates in its `position` field, and sits in the stack of its
own layer. -/
def cellConsistent (i j : Nat) (c : MapCell) : Prop :=
  (∀ o ∈ c.floorObjs, o.x = (i : Int) ∧ o.y = (j : Int) ∧ o.layer = Layer.Floor) ∧
  (∀ o ∈ c.playerObjs, o.x = (i : Int) ∧ o.y = (j : Int) ∧ o.layer = Layer.Player) ∧
  (∀ o ∈ c.solidObjs, o.x = (i : Int) ∧ o.y = (j : Int) ∧ o.layer = Layer.Solid)

/-- Position-cell consistency over the whole grid. -/
def WorldMap.consistent (m : WorldMap) : Prop :=
  ∀ i, (hi : i < m.map.length) → ∀ j, (hj : j < (m.map.get ⟨i, hi⟩).length) →
    cellConsistent i j ((m.map.get ⟨i, hi⟩).get ⟨j, hj⟩)

/-- The structural grid invariant of §3: correct backing shape, every
stored object's `position` field matching its cell and its layer matching
its stack. -/
def WorldMap.Inv (m : WorldMap) : Prop :=
  m.shape ∧ m.consistent

/-- Ids are globally unique across the grid. -/
def WorldMap.idsUnique (m : WorldMap) : Prop :=
  (m.objList.map GameObject.id).Nodup

/-- The player back-pointer targets a `Player` object owned by the grid
(a `Player`'s `get_layer()` is always `Solid`). -/
def WorldMap.playerWF (m : WorldMap) : Prop :=
  ∃ o ∈ m.objList, o.id = m.playerId ∧ o.layer = Layer.Solid

/-- Two grids with the same dimensions and player back-pointer. -/
def sameDims (a b : WorldMap) : Prop :=
  a.width = b.width ∧ a.height = b.height ∧ a.playerId = b.playerId

instance (i j : Nat) (c : MapCell) : Decidable (cellConsistent i j c) := by
  unfold cellConsistent
  infer_instance

instance (m : WorldMap) : Decidable m.shape := by
  unfold WorldMap.shape
  infer_instance

instance (m : WorldMap) : Decidable m.consistent := by
  unfold WorldMap.consistent
  exact Nat.decidableBallLT _ _

instance (m : WorldMap) : Decidable m.Inv := by
  unfold WorldMap.Inv
  infer_instance

instance (m : WorldMap) : Decidable m.idsUnique := by
  unfold WorldMap.idsUnique
  infer_instance

instance (m : WorldMap) : Decidable m.playerWF := by
  unfold WorldMap.playerWF
  infer_instance

instance (a b : WorldMap) : Decidable (sameDims a b) := by
  unfold sameDims
  infer_instance

/-- The multiset of ids of all objects owned by the grid. -/
def WorldMap.idsM (m : WorldMap) : Multiset Nat :=
  (m.objM).map GameObject.id

/-- The object a `to_move` entry describes: matching id, stored at the
entry's position, on the `Solid` layer. -/
def entryMatches (e : (Int × Int) × Nat) (o : GameObject) : Prop :=
  o.id = e.2 ∧ o.x = e.1.1 ∧ o.y = e.1.2 ∧ o.layer = Layer.Solid

/-- A `to_move` entry names an object the grid really holds. -/
def entryOk (m : WorldMap) (e : (Int × Int) × Nat) : Prop :=
  ∃ o ∈ m.objList, entryMatches e o

/-- What terminates a push chain: open space, a wall, or the grid edge. -/
inductive ChainEnd where
  | space
  | wall
  | edge
deriving DecidableEq, Repr

/-- Grid width for the chain scenarios of §8: the chain occupies cells
`0..k`, and cell `k+1` (when it exists) holds the terminator. -/
def chainWidth (k : Nat) : ChainEnd → Nat
  | .space => k + 2
  | .wall => k + 2
  | .edge => k + 1

/-- Solid stack of column `i` of the chain scenario: the player at `(0,0)`
(id 1), pushable blocks at `(1,0) .. (k,0)` (ids `2 .. k+1`), and—in the
wall scenario—a wall at `(k+1, 0)` (id `k+2`). -/
def chainSolid (k : Nat) (e : ChainEnd) (i : Nat) : List GameObject :=
  if i = 0 then [Player.new 1 0 0]
  else if i ≤ k then [Block.new_block (i + 1) (i : Int) 0]
  else
    match e with
    | .wall => [Block.new_wall (k + 2) (i : Int) 0]
    | _ => []

/-- One cell of the chain scenario. -/
def chainCell (k : Nat) (e : ChainEnd) (i : Nat) : MapCell :=
  ⟨[], [], chainSolid k e i⟩

/-- The `(chainWidth k e) × 1` grid of the push-chain scenario: the player
followed by a straight line of `k` pushable blocks in the `(1,0)`
direction, terminated by open space, a wall, or the grid edge. -/
def chainMap (k : Nat) (e : ChainEnd) : WorldMap :=
  { width := (chainWidth k e : Int), height := 1,
    map := (List.range (chainWidth k e)).map (fun i => [chainCell k e i]),
    playerId := 1 }

/-- The `to_move` table after the chain's first `j+1` cells were visited. -/
def chainEntries (j : Nat) : List ((Int × Int) × Nat) :=
  (List.range (j + 1)).map (fun (i : Nat) => (((i : Int), (0 : Int)), i + 1))

/-- The object the chain scenario stores at column `i` (for `i ≤ k`). -/
def chainObj (i : Nat) : GameObject :=
  if i = 0 then Player.new 1 0 0 else Block.new_block (i + 1) (i : Int) 0

/-- Whether the chain scenario's move succeeds: only with open space. -/
def chainResult : ChainEnd → Bool
  | .space => true
  | _ => false

/-- A 3×1 grid holding only the player (id 1) at `(0,0)`. -/
def tinyMap : WorldMap :=
  ((WorldMap.new 3 1 1).put_quiet (Player.new 1 0 0)).getD (WorldMap.new 3 1 1)

/-- A 2×1 grid: player (id 1) at `(0,0)`, a wall (id 2) at `(1,0)`. -/
def wallMap : WorldMap :=
  (((WorldMap.new 2 1 1).put_quiet (Player.new 1 0 0)).bind
    (fun m => m.put_quiet (Block.new_wall 2 1 0))).getD (WorldMap.new 2 1 1)

/-! ### Cell-level lemmas -/

theorem MapCell.getL_setL (c : MapCell) (l l' : Layer) (ls : List GameObject) :
    (c.setL l ls).getL l' = if l' = l then ls else c.getL l' := by
  cases l <;> cases l' <;> simp [MapCell.setL, MapCell.getL]

theorem MapCell.count_allObjs_setL (c : MapCell) (l : Layer) (ls : List GameObject)
    (a : GameObject) :
    ((c.setL l ls).allObjs).count a + ((c.getL l).count a)
      = (c.allObjs).count a + ls.count a := by
  cases l <;>
    simp [MapCell.setL, MapCell.getL, MapCell.allObjs, List.count_append] <;> omega

theorem MapCell.mem_allObjs (c : MapCell) (o : GameObject) :
    o ∈ c.allObjs ↔ ∃ l, o ∈ c.getL l := by
  constructor
  · intro h
    simp [MapCell.allObjs] at h
    rcases h with h | h | h
    exacts [⟨.Floor, h⟩, ⟨.Player, h⟩, ⟨.Solid, h⟩]
  · rintro ⟨l, hl⟩
    cases l <;> simp [MapCell.allObjs, MapCell.getL] at hl ⊢ <;> tauto

theorem MapCell.mem_allObjs_setL (c : MapCell) (l : Layer) (ls : List GameObject)
    (o : GameObject) (h : o ∈ (c.setL l ls).allObjs) :
    o ∈ c.allObjs ∨ o ∈ ls := by
  rcases (MapCell.mem_allObjs _ o).mp h with ⟨l', hl'⟩
  rw [MapCell.getL_setL] at hl'
  by_cases hll : l' = l
  · simp [hll] at hl'; exact Or.inr hl'
  · simp [hll] at hl'; exact Or.inl ((MapCell.mem_allObjs _ o).mpr ⟨l', hl'⟩)

/-! ### `removeById` -/

theorem removeById_snd_subset (l : List GameObject) (i : Nat) :
    ∀ b ∈ (removeById l i).2, b ∈ l := by
  induction l with
  | nil => simp [removeById]
  | cons o rest ih =>
    intro b hb
    by_cases h : o.id = i
    · simp only [removeById, if_pos h] at hb
      exact List.mem_cons_of_mem _ hb
    · simp only [removeById, if_neg h, List.mem_cons] at hb
      rcases hb with hb | hb
      · exact hb ▸ List.mem_cons_self o rest
      · exact List.mem_cons_of_mem _ (ih b hb)

theorem removeById_none (l : List GameObject) (i : Nat)
    (h : (removeById l i).1 = none) : (removeById l i).2 = l ∧ ∀ o ∈ l, o.id ≠ i := by
  induction l with
  | nil => simp [removeById]
  | cons o rest ih =>
    by_cases hid : o.id = i
    · simp [removeById, if_pos hid] at h
    · simp only [removeById, if_neg hid] at h ⊢
      rcases ih h with ⟨h1, h2⟩
      refine ⟨by simp [h1], ?_⟩
      intro b hb
      rcases List.mem_cons.mp hb with hb | hb
      · exact hb ▸ hid
      · exact h2 b hb

theorem removeById_some (l : List GameObject) (i : Nat) (o : GameObject)
    (h : (removeById l i).1 = some o) :
    o.id = i ∧ o ∈ l ∧
      ∀ a, l.count a = (removeById l i).2.count a + (if a = o then 1 else 0) := by
  induction l with
  | nil => simp [removeById] at h
  | cons b rest ih =>
    by_cases hid : b.id = i
    · simp only [removeById, if_pos hid, Option.some.injEq] at h
      subst h
      refine ⟨hid, List.mem_cons_self _ _, ?_⟩
      intro a
      simp only [removeById, if_pos hid, List.count_cons]
      rcases eq_or_ne a b with rfl | hne
      · simp
      · simp [hne, Ne.symm hne]
    · simp only [removeById, if_neg hid] at h ⊢
      rcases ih h with ⟨h1, h2, h3⟩
      refine ⟨h1, List.mem_cons_of_mem _ h2, ?_⟩
      intro a
      have := h3 a
      simp only [List.count_cons]
      omega

theorem removeById_isSome (l : List GameObject) (i : Nat)
    (h : ∃ o ∈ l, o.id = i) : ∃ o, (removeById l i).1 = some o := by
  induction l with
  | nil => simp at h
  | cons b rest ih =>
    by_cases hid : b.id = i
    · exact ⟨b, by simp [removeById, if_pos hid]⟩
    · rcases h with ⟨o, ho, hoid⟩
      rcases List.mem_cons.mp ho with rfl | ho
      · exact absurd hoid hid
      · rcases ih ⟨o, ho, hoid⟩ with ⟨o', ho'⟩
        exact ⟨o', by simp only [removeById, if_neg hid]; exact ho'⟩

/-! ### Grid shape, cell access and update -/

theorem count_flatten_map_set {α β : Type} [DecidableEq β] (f : α → List β)
    (l : List α) :
    ∀ (i : Nat) (b : α) (h : i < l.length) (x : β),
      (((l.set i b).map f).flatten).count x + (f (l.get ⟨i, h⟩)).count x
        = ((l.map f).flatten).count x + (f b).count x := by
  induction l with
  | nil => intro i b h x; simp at h
  | cons a tl ih =>
    intro i b h x
    cases i with
    | zero => simp [List.count_append]; omega
    | succ i =>
      have := ih i b (by simpa using h) x
      simp only [List.set_cons_succ, List.map_cons, List.flatten_cons,
        List.count_append, List.get_cons_succ] at *
      omega

theorem mem_flatten_map_of_get {α β : Type} (f : α → List β) (l : List α)
    (i : Nat) (h : i < l.length) (x : β) (hx : x ∈ f (l.get ⟨i, h⟩)) :
    x ∈ (l.map f).flatten := by
  refine List.mem_flatten.mpr ⟨f (l.get ⟨i, h⟩), ?_, hx⟩
  exact List.mem_map_of_mem f (l.get_mem i h)

theorem WorldMap.shape_x_lt (m : WorldMap) (hs : m.shape) (x y : Int)
    (h : m.invalid x y = false) : x.toNat < m.map.length := by
  rcases hs with ⟨h1, _⟩
  simp [WorldMap.invalid] at h
  omega

theorem WorldMap.shape_y_lt (m : WorldMap) (hs : m.shape) (x y : Int)
    (h : m.invalid x y = false) (hx : x.toNat < m.map.length) :
    y.toNat < (m.map.get ⟨x.toNat, hx⟩).length := by
  rcases hs with ⟨h1, h2⟩
  rw [h2 _ (m.map.get_mem x.toNat hx)]
  simp [WorldMap.invalid] at h
  omega

theorem WorldMap.getCell_eq_get (m : WorldMap) (x y : Int)
    (hx : x.toNat < m.map.length)
    (hy : y.toNat < (m.map.get ⟨x.toNat, hx⟩).length) :
    m.getCell x y = (m.map.get ⟨x.toNat, hx⟩).get ⟨y.toNat, hy⟩ := by
  have hy' : y.toNat < m.map[x.toNat].length := by
    simpa [List.get_eq_getElem] using hy
  unfold WorldMap.getCell
  simp only [List.getD_eq_getElem?_getD]
  rw [List.getElem?_eq_getElem hx]
  simp only [Option.getD_some]
  rw [List.getElem?_eq_getElem hy']
  simp [List.get_eq_getElem]

theorem WorldMap.setCell_width (m : WorldMap) (x y : Int) (c : MapCell) :
    (m.setCell x y c).width = m.width := rfl

theorem WorldMap.setCell_height (m : WorldMap) (x y : Int) (c : MapCell) :
    (m.setCell x y c).height = m.height := rfl

theorem WorldMap.setCell_playerId (m : WorldMap) (x y : Int) (c : MapCell) :
    (m.setCell x y c).playerId = m.playerId := rfl

theorem WorldMap.setCell_shape (m : WorldMap) (x y : Int) (c : MapCell)
    (hs : m.shape) : (m.setCell x y c).shape := by
  rcases hs with ⟨h1, h2⟩
  refine ⟨by simpa [WorldMap.setCell] using h1, ?_⟩
  intro col hcol
  simp only [WorldMap.setCell] at hcol
  rcases Nat.lt_or_ge x.toNat m.map.length with hlt | hge
  · rcases List.mem_or_eq_of_mem_set hcol with h | h
    · exact h2 col h
    · subst h
      rw [List.length_set]
      rw [List.getD_eq_getElem?_getD, List.getElem?_eq_getElem hlt]
      simpa using h2 _ (List.getElem_mem hlt)
  · rw [List.set_eq_of_length_le hge] at hcol
    exact h2 col hcol

theorem cellConsistent_getL {i j : Nat} {c : MapCell} (h : cellConsistent i j c)
    (l : Layer) : ∀ o ∈ c.getL l, o.x = (i : Int) ∧ o.y = (j : Int) ∧ o.layer = l := by
  cases l
  · exact h.1
  · exact h.2.1
  · exact h.2.2

theorem cellConsistent_setL {i j : Nat} {c : MapCell} (h : cellConsistent i j c)
    (l : Layer) (ls : List GameObject)
    (hls : ∀ o ∈ ls, o.x = (i : Int) ∧ o.y = (j : Int) ∧ o.layer = l) :
    cellConsistent i j (c.setL l ls) := by
  refine ⟨?_, ?_, ?_⟩ <;> intro o ho <;>
    rw [show c.setL l ls = c.setL l ls from rfl] at ho
  · rw [show (c.setL l ls).floorObjs = (c.setL l ls).getL .Floor from rfl,
      MapCell.getL_setL] at ho
    split at ho
    · next hl => exact (hl ▸ hls) o ho
    · exact h.1 o ho
  · rw [show (c.setL l ls).playerObjs = (c.setL l ls).getL .Player from rfl,
      MapCell.getL_setL] at ho
    split at ho
    · next hl => exact (hl ▸ hls) o ho
    · exact h.2.1 o ho
  · rw [show (c.setL l ls).solidObjs = (c.setL l ls).getL .Solid from rfl,
      MapCell.getL_setL] at ho
    split at ho
    · next hl => exact (hl ▸ hls) o ho
    · exact h.2.2 o ho

theorem WorldMap.consistent_iff (m : WorldMap) :
    m.consistent ↔ ∀ i j col cell, m.map[i]? = some col → col[j]? = some cell →
      cellConsistent i j cell := by
  constructor
  · intro h i j col cell hcol hcell
    rcases List.getElem?_eq_some_iff.mp hcol with ⟨hi, rfl⟩
    rcases List.getElem?_eq_some_iff.mp hcell with ⟨hj, rfl⟩
    have := h i hi j (by simpa [List.get_eq_getElem] using hj)
    simpa [List.get_eq_getElem] using this
  · intro h i hi j hj
    exact h i j (m.map.get ⟨i, hi⟩) _ (by simp [List.get_eq_getElem])
      (by simp [List.get_eq_getElem])

theorem WorldMap.setCell_consistent (m : WorldMap) (hm : m.consistent) (x y : Int)
    (c : MapCell) (hc : cellConsistent x.toNat y.toNat c) :
    (m.setCell x y c).consistent := by
  rw [WorldMap.consistent_iff] at hm ⊢
  intro i j col cell hcol hcell
  simp only [WorldMap.setCell] at hcol
  rw [List.getElem?_set] at hcol
  by_cases hxi : x.toNat = i
  · simp only [if_pos hxi] at hcol
    by_cases hlen : x.toNat < m.map.length
    · simp only [if_pos hlen] at hcol
      injection hcol with hcol
      subst hcol
      rw [List.getElem?_set] at hcell
      by_cases hyj : y.toNat = j
      · simp only [if_pos hyj] at hcell
        by_cases hylen : y.toNat < (m.map.getD x.toNat []).length
        · simp only [if_pos hylen] at hcell
          injection hcell with hcell
          subst hcell
          exact hxi ▸ hyj ▸ hc
        · rw [List.getD_eq_getElem?_getD] at hylen
          simp [hylen] at hcell
      · simp only [if_neg hyj] at hcell
        have hcol' : m.map.getD x.toNat [] = m.map[x.toNat] := by
          rw [List.getD_eq_getElem?_getD, List.getElem?_eq_getElem hlen]
          rfl
        rw [hcol'] at hcell
        exact hm i j _ _ (hxi ▸ List.getElem?_eq_getElem hlen) hcell
    · simp [hlen] at hcol
  · simp only [if_neg hxi] at hcol
    exact hm i j _ _ hcol hcell

theorem WorldMap.count_objList_setCell (m : WorldMap) (x y : Int) (c : MapCell)
    (hx : x.toNat < m.map.length)
    (hy : y.toNat < (m.map.get ⟨x.toNat, hx⟩).length) (a : GameObject) :
    ((m.setCell x y c).objList).count a + ((m.getCell x y).allObjs).count a
      = (m.objList).count a + (c.allObjs).count a := by
  have hcol : m.map.getD x.toNat [] = m.map.get ⟨x.toNat, hx⟩ := by
    rw [List.getD_eq_getElem?_getD, List.getElem?_eq_getElem hx]; simp
  have h1 := count_flatten_map_set colObjs m.map x.toNat
    ((m.map.getD x.toNat []).set y.toNat c) hx a
  have h2 := count_flatten_map_set MapCell.allObjs (m.map.get ⟨x.toNat, hx⟩)
    y.toNat c hy a
  rw [WorldMap.getCell_eq_get m x y hx hy]
  simp only [WorldMap.setCell, WorldMap.objList, hcol] at *
  simp only [colObjs] at *
  omega

/-! ### Grid membership and id lookup -/

theorem WorldMap.mem_objList_iff (m : WorldMap) (o : GameObject) :
    o ∈ m.objList ↔ ∃ (i j : Nat) (col : List MapCell) (cell : MapCell),
      m.map[i]? = some col ∧ col[j]? = some cell ∧ o ∈ cell.allObjs := by
  unfold WorldMap.objList colObjs
  simp only [List.mem_flatten, List.mem_map]
  constructor
  · rintro ⟨l, ⟨col, hcol, rfl⟩, ho⟩
    simp only [List.mem_flatten, List.mem_map] at ho
    rcases ho with ⟨l', ⟨cell, hcell, rfl⟩, ho⟩
    rcases List.mem_iff_getElem.mp hcol with ⟨i, hi, hieq⟩
    rcases List.mem_iff_getElem.mp hcell with ⟨j, hj, hjeq⟩
    refine ⟨i, j, col, cell, ?_, ?_, ho⟩
    · rw [List.getElem?_eq_getElem hi, hieq]
    · rw [List.getElem?_eq_getElem hj, hjeq]
  · rintro ⟨i, j, col, cell, hcol, hcell, ho⟩
    refine ⟨(col.map MapCell.allObjs).flatten, ⟨col, List.getElem?_mem hcol, rfl⟩, ?_⟩
    simp only [List.mem_flatten, List.mem_map]
    exact ⟨cell.allObjs, ⟨cell, List.getElem?_mem hcell, rfl⟩, ho⟩

theorem WorldMap.getCell_of_getElem? (m : WorldMap) (i j : Nat) (col : List MapCell)
    (cell : MapCell) (hcol : m.map[i]? = some col) (hcell : col[j]? = some cell) :
    m.getCell ((i : Nat) : Int) ((j : Nat) : Int) = cell := by
  unfold WorldMap.getCell
  simp only [List.getD_eq_getElem?_getD, Int.toNat_ofNat]
  rw [hcol]
  simp only [Option.getD_some]
  rw [hcell]
  rfl

theorem WorldMap.inv_getCell (m : WorldMap) (hm : m.Inv) (x y : Int)
    (hv : m.invalid x y = false) :
    ∀ l, ∀ o ∈ (m.getCell x y).getL l, o.x = x ∧ o.y = y ∧ o.layer = l := by
  obtain ⟨hs, hcons⟩ := hm
  have hx := m.shape_x_lt hs x y hv
  have hy := m.shape_y_lt hs x y hv hx
  rw [m.getCell_eq_get x y hx hy]
  intro l o ho
  have hc := hcons x.toNat hx y.toNat hy
  obtain ⟨h1, h2, h3⟩ := cellConsistent_getL hc l o ho
  have hx0 : (0 : Int) ≤ x := by simp [WorldMap.invalid] at hv; omega
  have hy0 : (0 : Int) ≤ y := by simp [WorldMap.invalid] at hv; omega
  exact ⟨by omega, by omega, h3⟩

theorem WorldMap.mem_objList_of_mem_getL (m : WorldMap) (hs : m.shape) (x y : Int)
    (hv : m.invalid x y = false) (l : Layer) (o : GameObject)
    (ho : o ∈ (m.getCell x y).getL l) : o ∈ m.objList := by
  have hx := m.shape_x_lt hs x y hv
  have hy := m.shape_y_lt hs x y hv hx
  rw [m.getCell_eq_get x y hx hy] at ho
  rw [WorldMap.mem_objList_iff]
  exact ⟨x.toNat, y.toNat, m.map.get ⟨x.toNat, hx⟩, _,
    by simp [List.get_eq_getElem], by simp [List.get_eq_getElem],
    (MapCell.mem_allObjs _ o).mpr ⟨l, ho⟩⟩

theorem WorldMap.mem_cell_of_mem_objList (m : WorldMap) (hm : m.Inv) (o : GameObject)
    (ho : o ∈ m.objList) :
    m.invalid o.x o.y = false ∧ o ∈ (m.getCell o.x o.y).getL o.layer := by
  obtain ⟨hs, hcons⟩ := hm
  rcases (WorldMap.mem_objList_iff m o).mp ho with ⟨i, j, col, cell, hcol, hcell, hoc⟩
  have hc : cellConsistent i j cell :=
    (WorldMap.consistent_iff m).mp hcons i j col cell hcol hcell
  rcases (MapCell.mem_allObjs cell o).mp hoc with ⟨l, hol⟩
  obtain ⟨hx, hy, hl⟩ := cellConsistent_getL hc l o hol
  rcases List.getElem?_eq_some_iff.mp hcol with ⟨hi, _⟩
  rcases List.getElem?_eq_some_iff.mp hcell with ⟨hj, _⟩
  have hwidth : i < m.width.toNat := hs.1 ▸ hi
  have hheight : j < m.height.toNat := by
    have hlen := hs.2 col (List.getElem?_mem hcol)
    omega
  have hv : m.invalid o.x o.y = false := by
    simp [WorldMap.invalid]
    omega
  refine ⟨hv, ?_⟩
  have hxi : o.x = ((i : Nat) : Int) := by omega
  have hyj : o.y = ((j : Nat) : Int) := by omega
  rw [hxi, hyj, m.getCell_of_getElem? i j col cell hcol hcell]
  exact hl ▸ hol

theorem WorldMap.idsUnique_inj (m : WorldMap) (hu : m.idsUnique) {a b : GameObject}
    (ha : a ∈ m.objList) (hb : b ∈ m.objList) (hid : a.id = b.id) : a = b :=
  List.inj_on_of_nodup_map hu ha hb hid

theorem WorldMap.findById_some_iff (m : WorldMap) (hu : m.idsUnique) (i : Nat)
    (o : GameObject) : m.findById i = some o ↔ o ∈ m.objList ∧ o.id = i := by
  constructor
  · intro h
    have hm' := List.mem_of_find?_eq_some h
    have hp := List.find?_some h
    simp only [beq_iff_eq] at hp
    exact ⟨hm', hp⟩
  · rintro ⟨hmem, rfl⟩
    have hsome : (m.objList.find? (fun o' => o'.id == o.id)).isSome := by
      rw [List.find?_isSome]
      exact ⟨o, hmem, by simp⟩
    rcases Option.isSome_iff_exists.mp hsome with ⟨o', ho'⟩
    have hm' := List.mem_of_find?_eq_some ho'
    have hp' := List.find?_some ho'
    simp only [beq_iff_eq] at hp'
    have heq : o' = o := m.idsUnique_inj hu hm' hmem hp'
    rw [WorldMap.findById, ho', heq]

theorem WorldMap.findById_none_iff (m : WorldMap) (i : Nat) :
    m.findById i = none ↔ ∀ o ∈ m.objList, o.id ≠ i := by
  unfold WorldMap.findById
  simp

theorem WorldMap.idsUnique_iff_objM (m : WorldMap) :
    m.idsUnique ↔ ((m.objM).map GameObject.id).Nodup := by
  simp [WorldMap.idsUnique, WorldMap.objM]

theorem objM_ext_of_count (m m' : WorldMap)
    (h : ∀ a, m'.objList.count a = m.objList.count a) : m'.objM = m.objM := by
  refine Multiset.ext.mpr (fun a => ?_)
  simp only [WorldMap.objM, Multiset.coe_count]
  exact h a

theorem idsUnique_of_objM_eq (m m' : WorldMap) (h : m'.objM = m.objM)
    (hu : m.idsUnique) : m'.idsUnique := by
  rw [WorldMap.idsUnique_iff_objM] at hu ⊢
  rw [h]
  exact hu

theorem mem_objList_of_objM_eq (m m' : WorldMap) (h : m'.objM = m.objM)
    (o : GameObject) (ho : o ∈ m'.objList) : o ∈ m.objList := by
  have : o ∈ m'.objM := Multiset.mem_coe.mpr ho
  rw [h] at this
  exact Multiset.mem_coe.mp this

theorem idPos_congr (m m' : WorldMap) (hu : m.idsUnique) (hu' : m'.idsUnique)
    (h : m'.objM = m.objM) : ∀ i, m'.idPos i = m.idPos i := by
  intro i
  unfold WorldMap.idPos
  cases hf : m.findById i with
  | none =>
    rw [WorldMap.findById_none_iff] at hf
    have : m'.findById i = none := by
      rw [WorldMap.findById_none_iff]
      intro o ho
      exact hf o (mem_objList_of_objM_eq m m' h o ho)
    rw [this]
  | some o =>
    obtain ⟨hmem, hid⟩ := (m.findById_some_iff hu i o).mp hf
    have hmem' : o ∈ m'.objList := mem_objList_of_objM_eq m' m h.symm o hmem
    rw [(m'.findById_some_iff hu' i o).mpr ⟨hmem', hid⟩]

/-! ### Operational lemmas: `put_quiet` -/

theorem MapCell.count_put_quiet (c : MapCell) (o a : GameObject) :
    ((c.put_quiet o).allObjs).count a = (c.allObjs).count a + if a = o then 1 else 0 := by
  have h := MapCell.count_allObjs_setL c o.layer (c.getL o.layer ++ [o]) a
  unfold MapCell.put_quiet
  rw [List.count_append] at h
  rcases eq_or_ne a o with rfl | hne
  · have hone : List.count a [a] = 1 := by simp
    rw [if_pos rfl]
    omega
  · rw [if_neg hne]
    have hzero : List.count a [o] = 0 := by simp [List.count_eq_zero, hne]
    omega

theorem MapCell.mem_put_quiet (c : MapCell) (o b : GameObject) (l : Layer)
    (hb : b ∈ (c.put_quiet o).getL l) : b ∈ c.getL l ∨ b = o := by
  unfold MapCell.put_quiet at hb
  rw [MapCell.getL_setL] at hb
  split at hb
  · next hl =>
    rcases List.mem_append.mp hb with hb | hb
    · exact Or.inl (by rw [hl]; exact hb)
    · simp at hb
      exact Or.inr hb
  · exact Or.inl hb

theorem WorldMap.consistent_getCell (m : WorldMap) (hm : m.consistent) (x y : Int)
    (hx : x.toNat < m.map.length)
    (hy : y.toNat < (m.map.get ⟨x.toNat, hx⟩).length) :
    cellConsistent x.toNat y.toNat (m.getCell x y) := by
  rw [m.getCell_eq_get x y hx hy]
  exact hm x.toNat hx y.toNat hy

theorem WorldMap.put_quiet_isSome_iff (m : WorldMap) (o : GameObject) :
    (m.put_quiet o).isSome ↔ m.invalid o.x o.y = false := by
  unfold WorldMap.put_quiet
  by_cases h : m.invalid o.x o.y <;> simp [h]

theorem WorldMap.put_quiet_dims (m m' : WorldMap) (o : GameObject)
    (h : m.put_quiet o = some m') :
    m'.width = m.width ∧ m'.height = m.height ∧ m'.playerId = m.playerId := by
  unfold WorldMap.put_quiet at h
  by_cases hv : m.invalid o.x o.y
  · simp [hv] at h
  · simp [hv] at h
    subst h
    exact ⟨rfl, rfl, rfl⟩

theorem WorldMap.put_quiet_count (m m' : WorldMap) (o : GameObject) (hs : m.shape)
    (h : m.put_quiet o = some m') (a : GameObject) :
    m'.objList.count a = m.objList.count a + if a = o then 1 else 0 := by
  unfold WorldMap.put_quiet at h
  by_cases hv : m.invalid o.x o.y
  · simp [hv] at h
  · simp [hv] at h
    subst h
    have hv' : m.invalid o.x o.y = false := by simpa using hv
    have hx := m.shape_x_lt hs o.x o.y hv'
    have hy := m.shape_y_lt hs o.x o.y hv' hx
    have h1 := m.count_objList_setCell o.x o.y ((m.getCell o.x o.y).put_quiet o) hx hy a
    have h2 := MapCell.count_put_quiet (m.getCell o.x o.y) o a
    omega

theorem WorldMap.put_quiet_shape (m m' : WorldMap) (o : GameObject) (hs : m.shape)
    (h : m.put_quiet o = some m') : m'.shape := by
  unfold WorldMap.put_quiet at h
  by_cases hv : m.invalid o.x o.y
  · simp [hv] at h
  · simp [hv] at h
    subst h
    exact m.setCell_shape _ _ _ hs

theorem WorldMap.put_quiet_inv (m m' : WorldMap) (o : GameObject) (hm : m.Inv)
    (h : m.put_quiet o = some m') : m'.Inv := by
  obtain ⟨hs, hcons⟩ := hm
  unfold WorldMap.put_quiet at h
  by_cases hv : m.invalid o.x o.y
  · simp [hv] at h
  · simp [hv] at h
    subst h
    have hv' : m.invalid o.x o.y = false := by simpa using hv
    have hx := m.shape_x_lt hs o.x o.y hv'
    have hy := m.shape_y_lt hs o.x o.y hv' hx
    refine ⟨m.setCell_shape _ _ _ hs, m.setCell_consistent hcons o.x o.y _ ?_⟩
    have hcell := m.consistent_getCell hcons o.x o.y hx hy
    unfold MapCell.put_quiet
    apply cellConsistent_setL hcell
    intro b hb
    rcases List.mem_append.mp hb with hb | hb
    · exact cellConsistent_getL hcell o.layer b hb
    · simp at hb
      subst hb
      have hb0 : (0 : Int) ≤ b.x ∧ (0 : Int) ≤ b.y := by
        simp [WorldMap.invalid] at hv'
        omega
      exact ⟨by omega, by omega, rfl⟩

/-! ### Operational lemmas: `take` and `take_id` -/

theorem WorldMap.take_dims (m : WorldMap) (x y : Int) (layer : Layer) :
    ((m.take x y layer).2).width = m.width ∧ ((m.take x y layer).2).height = m.height ∧
      ((m.take x y layer).2).playerId = m.playerId := by
  unfold WorldMap.take
  split <;> exact ⟨rfl, rfl, rfl⟩

theorem WorldMap.take_inv (m : WorldMap) (x y : Int) (layer : Layer) (hm : m.Inv) :
    ((m.take x y layer).2).Inv := by
  unfold WorldMap.take
  by_cases hv : m.invalid x y
  · simpa [hv] using hm
  · have hv' : m.invalid x y = false := by simpa using hv
    obtain ⟨hs, hcons⟩ := hm
    have hx := m.shape_x_lt hs x y hv'
    have hy := m.shape_y_lt hs x y hv' hx
    simp only [hv', Bool.false_eq_true, if_false]
    refine ⟨m.setCell_shape _ _ _ hs, m.setCell_consistent hcons x y _ ?_⟩
    have hcell := m.consistent_getCell hcons x y hx hy
    unfold MapCell.take
    apply cellConsistent_setL hcell
    intro b hb
    exact cellConsistent_getL hcell layer b ((List.dropLast_sublist _).subset hb)

theorem WorldMap.take_id_dims (m : WorldMap) (x y : Int) (layer : Layer) (i : Nat) :
    ((m.take_id x y layer i).2).width = m.width ∧
      ((m.take_id x y layer i).2).height = m.height ∧
      ((m.take_id x y layer i).2).playerId = m.playerId := by
  unfold WorldMap.take_id
  split <;> exact ⟨rfl, rfl, rfl⟩

theorem WorldMap.take_id_inv (m : WorldMap) (x y : Int) (layer : Layer) (i : Nat)
    (hm : m.Inv) : ((m.take_id x y layer i).2).Inv := by
  unfold WorldMap.take_id
  by_cases hv : m.invalid x y
  · simpa [hv] using hm
  · have hv' : m.invalid x y = false := by simpa using hv
    obtain ⟨hs, hcons⟩ := hm
    have hx := m.shape_x_lt hs x y hv'
    have hy := m.shape_y_lt hs x y hv' hx
    simp only [hv', Bool.false_eq_true, if_false]
    refine ⟨m.setCell_shape _ _ _ hs, m.setCell_consistent hcons x y _ ?_⟩
    have hcell := m.consistent_getCell hcons x y hx hy
    unfold MapCell.take_id
    apply cellConsistent_setL hcell
    intro b hb
    exact cellConsistent_getL hcell layer b (removeById_snd_subset _ _ b hb)

theorem WorldMap.take_id_spec (m : WorldMap) (x y : Int) (layer : Layer) (i : Nat)
    (o : GameObject) (m' : WorldMap) (hs : m.shape)
    (h : m.take_id x y layer i = (some o, m')) :
    m.invalid x y = false ∧ o.id = i ∧ o ∈ (m.getCell x y).getL layer ∧
      ∀ a, m.objList.count a = m'.objList.count a + if a = o then 1 else 0 := by
  unfold WorldMap.take_id at h
  by_cases hv : m.invalid x y
  · simp [hv] at h
  · have hv' : m.invalid x y = false := by simpa using hv
    simp only [hv', Bool.false_eq_true, if_false, MapCell.take_id] at h
    have h1 : (removeById ((m.getCell x y).getL layer) i).1 = some o := by
      have := congrArg Prod.fst h
      simpa using this
    have h2 : m' = m.setCell x y
        ((m.getCell x y).setL layer (removeById ((m.getCell x y).getL layer) i).2) := by
      have := congrArg Prod.snd h
      simpa using this.symm
    obtain ⟨hid, hmem, hcount⟩ := removeById_some _ _ _ h1
    refine ⟨hv', hid, hmem, ?_⟩
    intro a
    have hx := m.shape_x_lt hs x y hv'
    have hy := m.shape_y_lt hs x y hv' hx
    have hsc := m.count_objList_setCell x y
      ((m.getCell x y).setL layer (removeById ((m.getCell x y).getL layer) i).2) hx hy a
    have hcl := MapCell.count_allObjs_setL (m.getCell x y) layer
      (removeById ((m.getCell x y).getL layer) i).2 a
    have hrc := hcount a
    rw [h2]
    rcases eq_or_ne a o with rfl | hne
    · simp only [if_pos rfl] at hrc ⊢
      omega
    · simp only [if_neg hne] at hrc ⊢
      omega

theorem WorldMap.take_id_fst_some (m : WorldMap) (x y : Int) (layer : Layer) (i : Nat)
    (hv : m.invalid x y = false)
    (h : ∃ o ∈ (m.getCell x y).getL layer, o.id = i) :
    ∃ o, (m.take_id x y layer i).1 = some o := by
  unfold WorldMap.take_id
  simp only [hv, Bool.false_eq_true, if_false, MapCell.take_id]
  exact removeById_isSome _ _ h

/-! ### Failed moves -/

theorem move_solid_false_case (m : WorldMap) (d : Int × Int) (f : DeltaFrame)
    (m' : WorldMap) (f' : DeltaFrame)
    (h : m.move_solid d f = some (false, m', f')) : m' = m ∧ f' = f := by
  unfold WorldMap.move_solid at h
  split at h
  · simp at h
  · dsimp only at h
    split at h
    · simp at h
    · simp at h
      exact ⟨h.1.symm, h.2.symm⟩
    · split at h
      · simp at h
      · simp at h

/-- C2: a `move_solid` call that returns `false` leaves the grid exactly as
it was: the returned map is structurally identical to the input map, so
every object's position, id and layer are unchanged. -/
theorem move_solid_failed_atomic (m : WorldMap) (d : Int × Int) (f : DeltaFrame)
    (m' : WorldMap) (f' : DeltaFrame)
    (h : m.move_solid d f = some (false, m', f')) : m' = m :=
  (move_solid_false_case m d f m' f' h).1

/-- C2 witness: in `wallMap` the player pushes into the wall; the move
fails and the grid is unchanged. -/
theorem move_solid_failed_atomic_witness :
    wallMap.move_solid (1, 0) DeltaFrame.new = some (false, wallMap, DeltaFrame.new) ∧
      wallMap = wallMap :=
  ⟨by decide, move_solid_failed_atomic wallMap (1, 0) DeltaFrame.new wallMap
    DeltaFrame.new (by decide)⟩

/-- C10: a `move_solid` call that returns `false` appends no delta of any
kind: the output frame is the input frame, so a frame that was trivial
stays trivial and the caller's non-trivial-frame guard pushes nothing. -/
theorem move_solid_failed_records_nothing (m : WorldMap) (d : Int × Int)
    (f : DeltaFrame) (m' : WorldMap) (f' : DeltaFrame)
    (h : m.move_solid d f = some (false, m', f')) :
    f' = f ∧ (f.trivial = true → ∀ s : UndoStack,
      (if f'.trivial = true then s else s.push f') = s) := by
  obtain ⟨-, hf⟩ := move_solid_false_case m d f m' f' h
  subst hf
  exact ⟨rfl, fun ht s => by rw [if_pos ht]⟩

/-- C10 witness: the blocked push in `wallMap` leaves the fresh frame
trivial and the undo stack untouched. -/
theorem move_solid_failed_records_nothing_witness :
    wallMap.move_solid (1, 0) DeltaFrame.new = some (false, wallMap, DeltaFrame.new) ∧
      DeltaFrame.new.trivial = true ∧
      (DeltaFrame.new = DeltaFrame.new ∧ (DeltaFrame.new.trivial = true →
        ∀ s : UndoStack, (if DeltaFrame.new.trivial = true then s else s.push DeltaFrame.new) = s)) :=
  ⟨by decide, by decide,
    move_solid_failed_records_nothing wallMap (1, 0) DeltaFrame.new wallMap
      DeltaFrame.new (by decide)⟩

/-- C4: every query-style grid operation addressed out of bounds reports
"absent"/`false` and returns the grid unchanged, while `put`/`put_quiet`
with an out-of-bounds object panic (modelled as `none`). -/
theorem out_of_bounds_ops (m : WorldMap) (x y : Int) (layer : Layer) (i : Nat)
    (f : DeltaFrame) (o : GameObject) (h : m.invalid x y = true) :
    m.view x y layer = none ∧ m.take x y layer = (none, m) ∧
      m.take_id x y layer i = (none, m) ∧ m.delete x y layer f = (false, m, f) ∧
      m.delete_id x y layer i f = (false, m, f) ∧
      (m.invalid o.x o.y = true → m.put o f = none ∧ m.put_quiet o = none) := by
  refine ⟨?_, ?_, ?_, ?_, ?_, fun ho => ⟨?_, ?_⟩⟩
  · simp [WorldMap.view, h]
  · simp [WorldMap.take, h]
  · simp [WorldMap.take_id, h]
  · simp [WorldMap.delete, h]
  · simp [WorldMap.delete_id, h]
  · simp [WorldMap.put, ho]
  · simp [WorldMap.put_quiet, ho]

/-- C4 witness: coordinates `(5, 5)` lie outside the 3×1 `tinyMap`; every
query op reports absence and placement of an object at `(5, 5)` panics. -/
theorem out_of_bounds_ops_witness :
    tinyMap.invalid 5 5 = true ∧
      (tinyMap.view 5 5 Layer.Solid = none ∧ tinyMap.take 5 5 Layer.Solid = (none, tinyMap) ∧
        tinyMap.take_id 5 5 Layer.Solid 1 = (none, tinyMap) ∧
        tinyMap.delete 5 5 Layer.Solid DeltaFrame.new = (false, tinyMap, DeltaFrame.new) ∧
        tinyMap.delete_id 5 5 Layer.Solid 1 DeltaFrame.new = (false, tinyMap, DeltaFrame.new) ∧
        (tinyMap.invalid (Block.new_block 7 5 5).x (Block.new_block 7 5 5).y = true →
          tinyMap.put (Block.new_block 7 5 5) DeltaFrame.new = none ∧
          tinyMap.put_quiet (Block.new_block 7 5 5) = none)) :=
  ⟨by decide, out_of_bounds_ops tinyMap 5 5 Layer.Solid 1 DeltaFrame.new
    (Block.new_block 7 5 5) (by decide)⟩

/-- C5 counterexample: with `max_depth = 0` a push pops the (absent) back
and then pushes the new frame without touching `size`, so the stack holds
one frame — more than `max_depth`.  The claim fails as stated for a
zero-capacity stack. -/
theorem undo_stack_bounded_counterexample :
    ¬ (((UndoStack.new 0).push DeltaFrame.new).stack.length ≤
        ((UndoStack.new 0).push DeltaFrame.new).max_depth) := by
  decide

/-- C5 (amended with `1 ≤ max_depth`, and the implicit well-formedness
`size = stack.length ≤ max_depth` that `UndoStack::new` establishes):
a push keeps the stack within `max_depth` frames, and a push performed at
capacity drops the oldest (back) frame, makes the new frame the most
recent (front) and keeps the frame count at `max_depth`. -/
theorem undo_stack_bounded (s : UndoStack) (f : DeltaFrame)
    (hwf : s.size = s.stack.length) (hle : s.size ≤ s.max_depth)
    (hpos : 1 ≤ s.max_depth) :
    ((s.push f).size = (s.push f).stack.length ∧
      (s.push f).stack.length ≤ s.max_depth ∧ (s.push f).max_depth = s.max_depth) ∧
    (s.size = s.max_depth →
      (s.push f).stack = f :: s.stack.dropLast ∧
        (s.push f).stack.length = s.max_depth ∧ (s.push f).size = s.max_depth) := by
  unfold UndoStack.push
  by_cases hfull : s.size = s.max_depth
  · rw [if_pos hfull]
    have hlen : s.stack.dropLast.length = s.stack.length - 1 := s.stack.length_dropLast
    refine ⟨⟨?_, ?_, rfl⟩, fun _ => ⟨rfl, ?_, hfull⟩⟩ <;>
      simp only [List.length_cons, hlen] <;> omega
  · rw [if_neg hfull]
    exact ⟨⟨by simp [hwf], by simp; omega, rfl⟩, fun hc => absurd hc hfull⟩

/-- C5 witness: a full one-frame stack; pushing replaces its only frame. -/
theorem undo_stack_bounded_witness :
    ((⟨[DeltaFrame.new], 1, 1⟩ : UndoStack).size = (⟨[DeltaFrame.new], 1, 1⟩ : UndoStack).stack.length ∧
      (⟨[DeltaFrame.new], 1, 1⟩ : UndoStack).size ≤ 1 ∧ 1 ≤ (⟨[DeltaFrame.new], 1, 1⟩ : UndoStack).max_depth) ∧
    (((⟨[DeltaFrame.new], 1, 1⟩ : UndoStack).push ⟨[Delta.deletion none]⟩).stack
        = ⟨[Delta.deletion none]⟩ :: ([DeltaFrame.new] : List DeltaFrame).dropLast ∧
      ((⟨[DeltaFrame.new], 1, 1⟩ : UndoStack).push ⟨[Delta.deletion none]⟩).stack.length = 1) := by
  refine ⟨⟨by decide, by decide, by decide⟩, ?_⟩
  have h := undo_stack_bounded ⟨[DeltaFrame.new], 1, 1⟩ ⟨[Delta.deletion none]⟩
    (by decide) (by decide) (by decide)
  obtain ⟨-, h2⟩ := h
  obtain ⟨ha, hb, -⟩ := h2 (by decide)
  exact ⟨ha, hb⟩

/-- C6: popping an empty undo stack (`size = 0`) performs no reversion and
returns both the stack and the grid unchanged. -/
theorem pop_empty_noop (s : UndoStack) (m : WorldMap) (h : s.size = 0) :
    s.pop m = some (s, m) := by
  unfold UndoStack.pop
  simp [h]

/-- C6 witness: popping a fresh stack over `tinyMap` changes nothing. -/
theorem pop_empty_noop_witness :
    (UndoStack.new 5).size = 0 ∧
      (UndoStack.new 5).pop tinyMap = some (UndoStack.new 5, tinyMap) :=
  ⟨by decide, pop_empty_noop (UndoStack.new 5) tinyMap (by decide)⟩

/-- C7: reverting a `CreationDelta` is exactly `WorldMap::take` at the
recorded position and layer — it removes whatever object is on top of
that slot, and its effect on the grid does not depend on the recorded id
at all, so when another object occupies the slot that object is removed
instead. -/
theorem creation_revert_not_id_checked (m : WorldMap) (i : Nat) (pos : Int × Int)
    (layer : Layer) :
    Delta.revert (.creation i pos layer) m
        = some (.creation i pos layer, (m.take pos.1 pos.2 layer).2) ∧
      ∀ i', (Delta.revert (.creation i pos layer) m).map (fun r => r.2)
          = (Delta.revert (.creation i' pos layer) m).map (fun r => r.2) := by
  exact ⟨rfl, fun i' => rfl⟩

/-! ### Invariant preservation (C8) -/

theorem WorldMap.put_inv (m m' : WorldMap) (o : GameObject) (f f' : DeltaFrame)
    (hm : m.Inv) (h : m.put o f = some (m', f')) : m'.Inv := by
  unfold WorldMap.put at h
  by_cases hv : m.invalid o.x o.y
  · simp [hv] at h
  · simp [hv, MapCell.put] at h
    have hq : m.put_quiet o = some (m.setCell o.x o.y ((m.getCell o.x o.y).put_quiet o)) := by
      simp [WorldMap.put_quiet, hv]
    have h2 := WorldMap.put_quiet_inv m _ o hm hq
    rw [← h.1]
    simpa [MapCell.put_quiet] using h2

theorem Delta.revert_inv (δ : Delta) (m : WorldMap) (hm : m.Inv) (δ' : Delta)
    (m' : WorldMap) (h : δ.revert m = some (δ', m')) : m'.Inv := by
  cases δ with
  | motion i x y layer dx dy =>
    simp only [Delta.revert] at h
    split at h
    · simp at h
    · next o m₁ heq =>
      have hm₁ : m₁.Inv := by
        have h2 := WorldMap.take_id_inv m x y layer i hm
        rw [heq] at h2
        simpa using h2
      split at h
      · simp at h
      · next m₂ heq₂ =>
        simp only [Option.some.injEq, Prod.mk.injEq] at h
        rw [← h.2]
        exact WorldMap.put_quiet_inv m₁ m₂ _ hm₁ heq₂
  | deletion obj =>
    cases obj with
    | some o =>
      simp only [Delta.revert] at h
      split at h
      · simp at h
      · next m₁ heq =>
        simp only [Option.some.injEq, Prod.mk.injEq] at h
        rw [← h.2]
        exact WorldMap.put_quiet_inv m m₁ o hm heq
    | none =>
      simp only [Delta.revert, Option.some.injEq, Prod.mk.injEq] at h
      rw [← h.2]
      exact hm
  | creation i pos layer =>
    simp only [Delta.revert, Option.some.injEq, Prod.mk.injEq] at h
    rw [← h.2]
    exact m.take_inv pos.1 pos.2 layer hm

theorem revertDeltas_inv : ∀ (ds : List Delta) (m : WorldMap), m.Inv →
    ∀ ds' m', revertDeltas ds m = some (ds', m') → m'.Inv := by
  intro ds
  induction ds with
  | nil =>
    intro m hm ds' m' h
    simp only [revertDeltas, Option.some.injEq, Prod.mk.injEq] at h
    rw [← h.2]
    exact hm
  | cons d rest ih =>
    intro m hm ds' m' h
    simp only [revertDeltas] at h
    split at h
    · simp at h
    · next d' m₁ heq =>
      have hm₁ := Delta.revert_inv d m hm d' m₁ heq
      split at h
      · simp at h
      · next rest' m₂ heq₂ =>
        simp only [Option.some.injEq, Prod.mk.injEq] at h
        rw [← h.2]
        exact ih m₁ hm₁ rest' m₂ heq₂

theorem DeltaFrame.frame_revert_inv (f : DeltaFrame) (m : WorldMap) (hm : m.Inv)
    (f' : DeltaFrame) (m' : WorldMap) (h : f.revert m = some (f', m')) : m'.Inv := by
  unfold DeltaFrame.revert at h
  split at h
  · simp at h
  · next ds m₂ heq =>
    simp only [Option.some.injEq, Prod.mk.injEq] at h
    rw [← h.2]
    exact revertDeltas_inv f.deltas m hm ds m₂ heq

theorem UndoStack.pop_inv (s : UndoStack) (m : WorldMap) (hm : m.Inv)
    (s' : UndoStack) (m' : WorldMap) (h : s.pop m = some (s', m')) : m'.Inv := by
  unfold UndoStack.pop at h
  split at h
  · cases hst : s.stack with
    | nil =>
      rw [hst] at h
      simp at h
    | cons fr rest =>
      rw [hst] at h
      dsimp only at h
      cases hrev : fr.revert m with
      | none =>
        rw [hrev] at h
        simp at h
      | some r =>
        rw [hrev] at h
        rcases r with ⟨f2, m₂⟩
        simp only [Option.some.injEq, Prod.mk.injEq] at h
        rw [← h.2]
        exact DeltaFrame.frame_revert_inv fr m hm f2 m₂ hrev
  · simp only [Option.some.injEq, Prod.mk.injEq] at h
    rw [← h.2]
    exact hm

theorem moveSolidCommit_inv (dx dy : Int) :
    ∀ (entries : List ((Int × Int) × Nat)) (m : WorldMap) (f : DeltaFrame)
      (m' : WorldMap) (f' : DeltaFrame), m.Inv →
      WorldMap.moveSolidCommit dx dy entries m f = some (m', f') → m'.Inv := by
  intro entries
  induction entries with
  | nil =>
    intro m f m' f' hm h
    simp only [WorldMap.moveSolidCommit, Option.some.injEq, Prod.mk.injEq] at h
    rw [← h.1]
    exact hm
  | cons e rest ih =>
    intro m f m' f' hm h
    rcases e with ⟨⟨x, y⟩, i⟩
    simp only [WorldMap.moveSolidCommit] at h
    split at h
    · simp at h
    · next o m₁ heq =>
      have hm₁ : m₁.Inv := by
        have h2 := WorldMap.take_id_inv m x y Layer.Solid i hm
        rw [heq] at h2
        simpa using h2
      split at h
      · simp at h
      · next m₂ heq₂ =>
        exact ih m₂ _ m' f' (WorldMap.put_quiet_inv m₁ m₂ _ hm₁ heq₂) h

theorem WorldMap.move_solid_inv (m : WorldMap) (d : Int × Int) (f : DeltaFrame)
    (b : Bool) (m' : WorldMap) (f' : DeltaFrame) (hm : m.Inv)
    (h : m.move_solid d f = some (b, m', f')) : m'.Inv := by
  unfold WorldMap.move_solid at h
  split at h
  · simp at h
  · dsimp only at h
    split at h
    · simp at h
    · simp only [Option.some.injEq, Prod.mk.injEq] at h
      rw [← h.2.1]
      exact hm
    · split at h
      · simp at h
      · next m₂ f₂ heq =>
        simp only [Option.some.injEq, Prod.mk.injEq] at h
        rw [← h.2.1]
        exact moveSolidCommit_inv d.1 d.2 _ m f m₂ f₂ hm heq

/-- C8: the position-cell consistency invariant — the grid has its
advertised shape, every stored object's `position` field names exactly the
cell and layer stack it is stored in, and hence every stored object lies
within `[0,width) × [0,height)` — is preserved by every core mutation that
completes without panicking: `put_quiet`, `put`, `DeltaFrame::revert`,
`UndoStack::pop`, and `move_solid`. -/
theorem core_ops_preserve_consistency :
    (∀ (m m' : WorldMap) (o : GameObject), m.Inv → m.put_quiet o = some m' → m'.Inv) ∧
    (∀ (m m' : WorldMap) (o : GameObject) (f f' : DeltaFrame),
      m.Inv → m.put o f = some (m', f') → m'.Inv) ∧
    (∀ (m m' : WorldMap) (f f' : DeltaFrame),
      m.Inv → f.revert m = some (f', m') → m'.Inv) ∧
    (∀ (s s' : UndoStack) (m m' : WorldMap),
      m.Inv → s.pop m = some (s', m') → m'.Inv) ∧
    (∀ (m m' : WorldMap) (d : Int × Int) (f f' : DeltaFrame) (b : Bool),
      m.Inv → m.move_solid d f = some (b, m', f') → m'.Inv) ∧
    (∀ m : WorldMap, m.Inv → ∀ o ∈ m.objList,
      0 ≤ o.x ∧ o.x < m.width ∧ 0 ≤ o.y ∧ o.y < m.height) := by
  refine ⟨fun m m' o hm h => WorldMap.put_quiet_inv m m' o hm h,
    fun m m' o f f' hm h => WorldMap.put_inv m m' o f f' hm h,
    fun m m' f f' hm h => DeltaFrame.frame_revert_inv f m hm f' m' h,
    fun s s' m m' hm h => UndoStack.pop_inv s m hm s' m' h,
    fun m m' d f f' b hm h => WorldMap.move_solid_inv m d f b m' f' hm h,
    fun m hm o ho => ?_⟩
  have hv := (m.mem_cell_of_mem_objList hm o ho).1
  simp [WorldMap.invalid] at hv
  exact ⟨by omega, by omega, by omega, by omega⟩

/-- C8 witness: placing a block at `(2,0)` in `tinyMap` preserves the
consistency invariant. -/
theorem core_ops_preserve_consistency_witness :
    tinyMap.Inv ∧
      tinyMap.put_quiet (Block.new_block 9 2 0)
        = some ((tinyMap.put_quiet (Block.new_block 9 2 0)).getD tinyMap) ∧
      ((tinyMap.put_quiet (Block.new_block 9 2 0)).getD tinyMap).Inv :=
  ⟨by decide, by decide,
    core_ops_preserve_consistency.1 tinyMap _ (Block.new_block 9 2 0)
      (by decide) (by decide)⟩

/-! ### Shift and multiset bookkeeping helpers -/

theorem shiftObj_id (d : Int × Int) (o : GameObject) : (shiftObj d o).id = o.id := rfl

theorem shiftObj_layer (d : Int × Int) (o : GameObject) :
    (shiftObj d o).layer = o.layer := rfl

theorem shiftObj_inv (dx dy : Int) (o : GameObject) :
    shiftObj (-dx, -dy) (shiftObj (dx, dy) o) = o := by
  cases o
  simp [shiftObj]

theorem shift_pos_fst (o : GameObject) (d : Int × Int) (f : DeltaFrame) :
    (o.shift_pos d f).1 = shiftObj d o := rfl

theorem shift_pos_snd (o : GameObject) (d : Int × Int) (f : DeltaFrame) :
    (o.shift_pos d f).2
      = f.push (.motion o.id (o.x + d.1) (o.y + d.2) o.layer d.1 d.2) := rfl

theorem count_cons_eq (b : GameObject) (L : List GameObject) (a : GameObject) :
    (b :: L).count a = L.count a + if a = b then 1 else 0 := by
  rcases eq_or_ne a b with rfl | hne
  · rw [if_pos rfl]
    simp [List.count_cons]
  · rw [if_neg hne]
    simp [List.count_cons, hne]

theorem forall₂_mem_right {α β : Type} {R : α → β → Prop} :
    ∀ {l₁ : List α} {l₂ : List β}, List.Forall₂ R l₁ l₂ →
      ∀ b ∈ l₂, ∃ e ∈ l₁, R e b := by
  intro l₁ l₂ h
  induction h with
  | nil => simp
  | cons hR _ ih =>
    intro b hb
    rcases List.mem_cons.mp hb with rfl | hb
    · exact ⟨_, List.mem_cons_self _ _, hR⟩
    · rcases ih b hb with ⟨e, he, heR⟩
      exact ⟨e, List.mem_cons_of_mem _ he, heR⟩

theorem WorldMap.idsUnique_iff_idsM (m : WorldMap) :
    m.idsUnique ↔ (m.idsM).Nodup :=
  m.idsUnique_iff_objM

theorem idsM_eq_of_swap (m m' : WorldMap) (o o' : GameObject) (hid : o'.id = o.id)
    (hcount : ∀ a, m'.objList.count a + (if a = o then 1 else 0)
        = m.objList.count a + (if a = o' then 1 else 0)) : m'.idsM = m.idsM := by
  have h2 : m'.objM + {o} = m.objM + {o'} := by
    refine Multiset.ext.mpr (fun a => ?_)
    have hc := hcount a
    simp only [Multiset.count_add, WorldMap.objM, Multiset.coe_count,
      Multiset.count_singleton]
    rcases eq_or_ne a o with rfl | h1
    · rw [if_pos rfl] at hc ⊢
      rcases eq_or_ne a o' with h2 | h2
      · rw [if_pos h2] at hc ⊢
        omega
      · rw [if_neg h2] at hc ⊢
        omega
    · rw [if_neg h1] at hc ⊢
      rcases eq_or_ne a o' with h2 | h2
      · rw [if_pos h2] at hc ⊢
        omega
      · rw [if_neg h2] at hc ⊢
        omega
  have h3 := congrArg (Multiset.map GameObject.id) h2
  simp only [Multiset.map_add, Multiset.map_singleton, hid] at h3
  exact add_right_cancel h3

theorem objM_add_eq_of_count (m m' : WorldMap) (L L' : List GameObject)
    (h : ∀ a, m'.objList.count a + L.count a = m.objList.count a + L'.count a) :
    m'.objM + (L : Multiset GameObject) = m.objM + (L' : Multiset GameObject) := by
  refine Multiset.ext.mpr (fun a => ?_)
  simp only [Multiset.count_add, WorldMap.objM, Multiset.coe_count]
  exact h a

/-! ### The commit phase of `move_solid` -/

theorem moveSolidCommit_spec (dx dy : Int) :
    ∀ (entries : List ((Int × Int) × Nat)) (m : WorldMap) (f : DeltaFrame)
      (m' : WorldMap) (f' : DeltaFrame),
      m.Inv → m.idsUnique → (entries.map Prod.snd).Nodup →
      WorldMap.moveSolidCommit dx dy entries m f = some (m', f') →
      ∃ objs : List GameObject,
        List.Forall₂ entryMatches entries objs ∧
        (∀ o ∈ objs, o ∈ m.objList) ∧
        f'.deltas = f.deltas ++ entries.map (motionOf (dx, dy)) ∧
        (∀ a, m'.objList.count a + objs.count a
            = m.objList.count a + (objs.map (shiftObj (dx, dy))).count a) ∧
        m'.idsM = m.idsM ∧ m'.Inv ∧ m'.idsUnique ∧
        m'.width = m.width ∧ m'.height = m.height ∧ m'.playerId = m.playerId := by
  intro entries
  induction entries with
  | nil =>
    intro m f m' f' hm hu hn h
    simp only [WorldMap.moveSolidCommit, Option.some.injEq, Prod.mk.injEq] at h
    obtain ⟨h1, h2⟩ := h
    subst h1
    subst h2
    exact ⟨[], List.Forall₂.nil, by simp, by simp, fun a => by simp, rfl, hm, hu,
      rfl, rfl, rfl⟩
  | cons e rest ih =>
    intro m f m' f' hm hu hn h
    rcases e with ⟨⟨x, y⟩, i⟩
    simp only [WorldMap.moveSolidCommit] at h
    split at h
    · simp at h
    · next o m₁ heq =>
      split at h
      · simp at h
      · next m₂ heq₂ =>
        rw [show (o.shift_pos (dx, dy) f).1 = shiftObj (dx, dy) o from rfl] at heq₂
        have hs := hm.1
        obtain ⟨hv, hid, hmem_cell, hcnt⟩ :=
          WorldMap.take_id_spec m x y Layer.Solid i o m₁ hs heq
        have ho_m : o ∈ m.objList :=
          m.mem_objList_of_mem_getL hs x y hv Layer.Solid o hmem_cell
        obtain ⟨hox, hoy, holayer⟩ :=
          m.inv_getCell hm x y hv Layer.Solid o hmem_cell
        have hm₁ : m₁.Inv := by
          have h2 := WorldMap.take_id_inv m x y Layer.Solid i hm
          rw [heq] at h2
          simpa using h2
        have hm₂ : m₂.Inv := WorldMap.put_quiet_inv m₁ m₂ _ hm₁ heq₂
        have hcnt₁ := WorldMap.put_quiet_count m₁ m₂ _ hm₁.1 heq₂
        have hswap : ∀ a, m₂.objList.count a + (if a = o then 1 else 0)
            = m.objList.count a + (if a = shiftObj (dx, dy) o then 1 else 0) := by
          intro a
          have ha := hcnt a
          have hb := hcnt₁ a
          omega
        have hids : m₂.idsM = m.idsM :=
          idsM_eq_of_swap m m₂ o (shiftObj (dx, dy) o) (shiftObj_id _ _) hswap
        have hu₂ : m₂.idsUnique := by
          rw [WorldMap.idsUnique_iff_idsM] at hu ⊢
          rw [hids]
          exact hu
        have hn2 : ¬ i ∈ rest.map Prod.snd ∧ (rest.map Prod.snd).Nodup := by
          simp only [List.map_cons] at hn
          exact List.nodup_cons.mp hn
        obtain ⟨objs', hfa, hmem', hframe, hcount', hids', hinv', hu', hw', hh', hp'⟩ :=
          ih m₂ _ m' f' hm₂ hu₂ hn2.2 h
        -- dims of m₂
        have hd₁ := WorldMap.take_id_dims m x y Layer.Solid i
        rw [heq] at hd₁
        have hd₂ := WorldMap.put_quiet_dims m₁ m₂ _ heq₂
        refine ⟨o :: objs', ?_, ?_, ?_, ?_, ?_, hinv', hu', ?_, ?_, ?_⟩
        · exact List.Forall₂.cons ⟨hid, hox, hoy, holayer⟩ hfa
        · intro b hb
          rcases List.mem_cons.mp hb with rfl | hb
          · exact ho_m
          · have hbm₂ := hmem' b hb
            -- b's id comes from some entry of `rest`, so it differs from i
            obtain ⟨e', he', hbe'⟩ := forall₂_mem_right hfa b hb
            have hbid : b.id ≠ i := by
              intro hcon
              apply hn2.1
              have hmm : e'.2 ∈ rest.map Prod.snd := List.mem_map_of_mem Prod.snd he'
              rw [← hbe'.1, hcon] at hmm
              exact hmm
            have hbo : b ≠ o := fun hcon => hbid (by rw [hcon, hid])
            have hbs : b ≠ shiftObj (dx, dy) o := fun hcon => hbid (by
              rw [hcon, shiftObj_id, hid])
            have hpos : 0 < m₂.objList.count b := List.count_pos_iff.mpr hbm₂
            have := hswap b
            rw [if_neg hbo, if_neg hbs] at this
            exact List.count_pos_iff.mp (by omega)
        · rw [hframe]
          rw [show ((o.shift_pos (dx, dy) f).2).deltas
              = f.deltas ++ [Delta.motion o.id (o.x + dx) (o.y + dy) o.layer dx dy]
            from rfl]
          simp only [List.map_cons, List.append_assoc, List.singleton_append]
          rw [hid, hox, hoy, holayer]
          rfl
        · intro a
          have h1 := hswap a
          have h2 := hcount' a
          rw [count_cons_eq]
          simp only [List.map_cons]
          rw [count_cons_eq]
          omega
        · rw [hids', hids]
        · rw [hw', hd₂.1, hd₁.1]
        · rw [hh', hd₂.2.1, hd₁.2.1]
        · rw [hp', hd₂.2.2, hd₁.2.2]

theorem invalid_eq_of_dims (m q : WorldMap) (hw : q.width = m.width)
    (hh : q.height = m.height) (x y : Int) : q.invalid x y = m.invalid x y := by
  unfold WorldMap.invalid
  rw [hw, hh]

theorem moveSolidCommit_succeeds (dx dy : Int) :
    ∀ (entries : List ((Int × Int) × Nat)) (m : WorldMap) (f : DeltaFrame),
      m.Inv → m.idsUnique → (entries.map Prod.snd).Nodup →
      (∀ e ∈ entries, entryOk m e) →
      (∀ e ∈ entries, m.invalid (e.1.1 + dx) (e.1.2 + dy) = false) →
      ∃ m' f', WorldMap.moveSolidCommit dx dy entries m f = some (m', f') := by
  intro entries
  induction entries with
  | nil =>
    intro m f _ _ _ _ _
    exact ⟨m, f, rfl⟩
  | cons e rest ih =>
    intro m f hm hu hn hok htg
    rcases e with ⟨⟨x, y⟩, i⟩
    obtain ⟨og, hogm, hmat⟩ := hok _ (List.mem_cons_self _ _)
    obtain ⟨hogid, hogx, hogy, hogl⟩ := hmat
    have hcell := m.mem_cell_of_mem_objList hm og hogm
    rw [hogx, hogy, hogl] at hcell
    obtain ⟨o, ho⟩ := m.take_id_fst_some x y Layer.Solid i hcell.1 ⟨og, hcell.2, hogid⟩
    rcases hpair : m.take_id x y Layer.Solid i with ⟨fst, m₁⟩
    rw [hpair] at ho
    simp only at ho
    subst ho
    obtain ⟨hv, hid, hmem_cell, hcnt⟩ :=
      WorldMap.take_id_spec m x y Layer.Solid i o m₁ hm.1 hpair
    obtain ⟨hox, hoy, hol⟩ := m.inv_getCell hm x y hv Layer.Solid o hmem_cell
    have ho_m : o ∈ m.objList :=
      m.mem_objList_of_mem_getL hm.1 x y hv Layer.Solid o hmem_cell
    have hm₁ : m₁.Inv := by
      have h2 := WorldMap.take_id_inv m x y Layer.Solid i hm
      rw [hpair] at h2
      simpa using h2
    have hd₁ : m₁.width = m.width ∧ m₁.height = m.height ∧ m₁.playerId = m.playerId := by
      have h2 := WorldMap.take_id_dims m x y Layer.Solid i
      rw [hpair] at h2
      simpa using h2
    have htarget := htg _ (List.mem_cons_self _ _)
    have hps : (m₁.put_quiet (shiftObj (dx, dy) o)).isSome := by
      rw [WorldMap.put_quiet_isSome_iff]
      rw [show (shiftObj (dx, dy) o).x = o.x + dx from rfl,
        show (shiftObj (dx, dy) o).y = o.y + dy from rfl, hox, hoy,
        invalid_eq_of_dims m m₁ hd₁.1 hd₁.2.1]
      exact htarget
    obtain ⟨m₂, heq₂⟩ := Option.isSome_iff_exists.mp hps
    have hm₂ := WorldMap.put_quiet_inv m₁ m₂ _ hm₁ heq₂
    have hcnt₁ := WorldMap.put_quiet_count m₁ m₂ _ hm₁.1 heq₂
    have hswap : ∀ a, m₂.objList.count a + (if a = o then 1 else 0)
        = m.objList.count a + (if a = shiftObj (dx, dy) o then 1 else 0) := by
      intro a
      have ha := hcnt a
      have hb := hcnt₁ a
      omega
    have hids : m₂.idsM = m.idsM :=
      idsM_eq_of_swap m m₂ o (shiftObj (dx, dy) o) (shiftObj_id _ _) hswap
    have hu₂ : m₂.idsUnique := by
      rw [WorldMap.idsUnique_iff_idsM] at hu ⊢
      rw [hids]
      exact hu
    have hd₂ := WorldMap.put_quiet_dims m₁ m₂ _ heq₂
    have hdm : m₂.width = m.width ∧ m₂.height = m.height ∧ m₂.playerId = m.playerId :=
      ⟨by rw [hd₂.1, hd₁.1], by rw [hd₂.2.1, hd₁.2.1], by rw [hd₂.2.2, hd₁.2.2]⟩
    have hn2 : ¬ i ∈ rest.map Prod.snd ∧ (rest.map Prod.snd).Nodup := by
      simp only [List.map_cons] at hn
      exact List.nodup_cons.mp hn
    have hok₂ : ∀ e ∈ rest, entryOk m₂ e := by
      intro e' he'
      obtain ⟨b, hbm, hbmat⟩ := hok e' (List.mem_cons_of_mem _ he')
      refine ⟨b, ?_, hbmat⟩
      have hbid : b.id ≠ i := by
        intro hcon
        apply hn2.1
        have hmm : e'.2 ∈ rest.map Prod.snd := List.mem_map_of_mem Prod.snd he'
        rw [← hbmat.1, hcon] at hmm
        exact hmm
      have hbo : b ≠ o := fun hcon => hbid (by rw [hcon, hid])
      have hbs : b ≠ shiftObj (dx, dy) o := fun hcon => hbid (by
        rw [hcon, shiftObj_id, hid])
      have hpos : 0 < m.objList.count b := List.count_pos_iff.mpr hbm
      have hsw := hswap b
      rw [if_neg hbo, if_neg hbs] at hsw
      exact List.count_pos_iff.mp (by omega)
    have htg₂ : ∀ e ∈ rest, m₂.invalid (e.1.1 + dx) (e.1.2 + dy) = false := by
      intro e' he'
      rw [invalid_eq_of_dims m m₂ hdm.1 hdm.2.1]
      exact htg e' (List.mem_cons_of_mem _ he')
    obtain ⟨m', f', hrec⟩ := ih m₂ ((o.shift_pos (dx, dy) f).2) hm₂ hu₂ hn2.2 hok₂ htg₂
    refine ⟨m', f', ?_⟩
    simp only [WorldMap.moveSolidCommit]
    rw [hpair]
    dsimp only
    rw [show (o.shift_pos (dx, dy) f).1 = shiftObj (dx, dy) o from rfl, heq₂]
    exact hrec

/-! ### The zero-direction move (C9) -/

theorem shiftObj_zero (o : GameObject) : shiftObj (0, 0) o = o := by
  cases o
  simp [shiftObj]

theorem WorldMap.get_player_pos_spec (m : WorldMap) (hu : m.idsUnique)
    (hw : m.playerWF) :
    ∃ po, po ∈ m.objList ∧ po.id = m.playerId ∧ po.layer = Layer.Solid ∧
      m.get_player_pos = some (po.x, po.y) := by
  obtain ⟨o, ho, hid, hl⟩ := hw
  have hf := (m.findById_some_iff hu m.playerId o).mpr ⟨ho, hid⟩
  exact ⟨o, ho, hid, hl, by rw [WorldMap.get_player_pos, hf]; rfl⟩

theorem moveSolidCheck_zero (m : WorldMap) (p : Int × Int) (i fuel : Nat)
    (h : 2 ≤ fuel) :
    m.moveSolidCheck 0 0 fuel [(p, i)] [p] = some (true, [(p, i)]) := by
  obtain ⟨f2, rfl⟩ : ∃ f2, fuel = f2 + 2 := ⟨fuel - 2, by omega⟩
  rcases p with ⟨px, py⟩
  simp [WorldMap.moveSolidCheck, containsKey]

/-- C9: calling `move_solid` with the direction `(0,0)` — outside the
spec's four-unit-vector precondition — returns `true` on any well-formed
grid, moves nothing (the object multiset, hence every position and the
id-to-position map, is unchanged), yet appends exactly one zero-
displacement `MotionDelta` for the player, making the frame non-trivial. -/
theorem move_solid_zero_direction (m : WorldMap) (f : DeltaFrame)
    (hm : m.Inv) (hu : m.idsUnique) (hp : m.playerWF) :
    ∃ (px py : Int) (m' : WorldMap),
      m.get_player_pos = some (px, py) ∧
      m.move_solid (0, 0) f
        = some (true, m', f.push (.motion m.playerId px py Layer.Solid 0 0)) ∧
      m'.objM = m.objM ∧ (∀ i, m'.idPos i = m.idPos i) ∧
      (f.push (.motion m.playerId px py Layer.Solid 0 0)).trivial = false := by
  obtain ⟨po, hpom, hpoid, hpol, hppos⟩ := m.get_player_pos_spec hu hp
  have hcell := m.mem_cell_of_mem_objList hm po hpom
  have hok : entryOk m ((po.x, po.y), m.playerId) :=
    ⟨po, hpom, hpoid, rfl, rfl, hpol⟩
  have htg : ∀ e ∈ [((po.x, po.y), m.playerId)],
      m.invalid (e.1.1 + 0) (e.1.2 + 0) = false := by
    intro e he
    simp only [List.mem_singleton] at he
    subst he
    simpa using hcell.1
  obtain ⟨m', f', hcommit⟩ := moveSolidCommit_succeeds 0 0
    [((po.x, po.y), m.playerId)] m f hm hu (by simp) (by
      intro e he
      simp only [List.mem_singleton] at he
      subst he
      exact hok) htg
  obtain ⟨objs, hfa, hmem, hframe, hcount, hids, hinv', hu', hw', hh', hp'⟩ :=
    moveSolidCommit_spec 0 0 [((po.x, po.y), m.playerId)] m f m' f' hm hu
      (by simp) hcommit
  have hcnt0 : ∀ a, m'.objList.count a = m.objList.count a := by
    intro a
    have h2 := hcount a
    have h3 : objs.map (shiftObj (0, 0)) = objs := by
      calc objs.map (shiftObj (0, 0)) = objs.map id :=
            List.map_congr_left (fun o _ => shiftObj_zero o)
        _ = objs := List.map_id objs
    rw [h3] at h2
    omega
  have hobjM : m'.objM = m.objM := by
    refine Multiset.ext.mpr (fun a => ?_)
    simp only [WorldMap.objM, Multiset.coe_count]
    exact hcnt0 a
  have hu'' : m'.idsUnique := hu'
  have hframe' : f' = f.push (.motion m.playerId po.x po.y Layer.Solid 0 0) := by
    rcases f' with ⟨ds⟩
    simp only at hframe
    rw [DeltaFrame.push]
    simp only [hframe, motionOf, List.map_cons, List.map_nil]
    simp
  refine ⟨po.x, po.y, m', hppos, ?_, hobjM, idPos_congr m m' hu hu'' hobjM, by
    simp [DeltaFrame.trivial, DeltaFrame.push]⟩
  unfold WorldMap.move_solid
  rw [hppos]
  dsimp only
  rw [moveSolidCheck_zero m (po.x, po.y) m.get_player_id
    (m.width.toNat * m.height.toNat + 2) (by omega)]
  dsimp only
  rw [show m.get_player_id = m.playerId from rfl] at *
  rw [hcommit, hframe']

/-- C9 witness: the zero-direction move on `tinyMap`. -/
theorem move_solid_zero_direction_witness :
    tinyMap.Inv ∧ tinyMap.idsUnique ∧ tinyMap.playerWF ∧
      (∃ (px py : Int) (m' : WorldMap),
        tinyMap.get_player_pos = some (px, py) ∧
        tinyMap.move_solid (0, 0) DeltaFrame.new
          = some (true, m',
              DeltaFrame.new.push (.motion tinyMap.playerId px py Layer.Solid 0 0)) ∧
        m'.objM = tinyMap.objM ∧ (∀ i, m'.idPos i = tinyMap.idPos i) ∧
        (DeltaFrame.new.push
          (.motion tinyMap.playerId px py Layer.Solid 0 0)).trivial = false) :=
  ⟨by decide, by decide, by decide,
    move_solid_zero_direction tinyMap DeltaFrame.new (by decide) (by decide) (by decide)⟩

/-! ### The chain scenario grids (C3) -/

theorem chainWidth_pos (k : Nat) (e : ChainEnd) : 1 ≤ chainWidth k e := by
  cases e <;> simp only [chainWidth] <;> omega

theorem chainSolid_eq_chainObj (k : Nat) (e : ChainEnd) (i : Nat) (h : i ≤ k) :
    chainSolid k e i = [chainObj i] := by
  unfold chainSolid chainObj
  by_cases h0 : i = 0
  · simp [h0]
  · simp [h0, h]

theorem chainMap_map_getElem? (k : Nat) (e : ChainEnd) (i : Nat)
    (h : i < chainWidth k e) :
    (chainMap k e).map[i]? = some [chainCell k e i] := by
  simp [chainMap, List.getElem?_map, List.getElem?_range, h]

theorem chainMap_getCell (k : Nat) (e : ChainEnd) (i : Nat)
    (h : i < chainWidth k e) :
    (chainMap k e).getCell ((i : Nat) : Int) ((0 : Nat) : Int) = chainCell k e i :=
  WorldMap.getCell_of_getElem? _ i 0 [chainCell k e i] (chainCell k e i)
    (chainMap_map_getElem? k e i h) (by simp)

theorem chainMap_invalid_false (k : Nat) (e : ChainEnd) (t : Nat)
    (h : t < chainWidth k e) : (chainMap k e).invalid ((t : Nat) : Int) 0 = false := by
  simp [chainMap, WorldMap.invalid]
  omega

theorem chainMap_invalid_true (k : Nat) (e : ChainEnd) (t : Nat)
    (h : chainWidth k e ≤ t) : (chainMap k e).invalid ((t : Nat) : Int) 0 = true := by
  simp [chainMap, WorldMap.invalid]
  omega

theorem chainMap_view (k : Nat) (e : ChainEnd) (i : Nat) (h : i < chainWidth k e) :
    (chainMap k e).view ((i : Nat) : Int) 0 Layer.Solid
      = (chainSolid k e i).getLast? := by
  unfold WorldMap.view
  rw [show ((0 : Int)) = ((0 : Nat) : Int) from rfl, chainMap_getCell k e i h]
  rw [show ((0 : Nat) : Int) = (0 : Int) from rfl, chainMap_invalid_false k e i h]
  simp [MapCell.view, chainCell, MapCell.getL]

theorem chainMap_objList (k : Nat) (e : ChainEnd) :
    (chainMap k e).objList
      = ((List.range (chainWidth k e)).map (chainSolid k e)).flatten := by
  unfold WorldMap.objList chainMap colObjs
  rw [List.map_map]
  congr 1
  apply List.map_congr_left
  intro i _
  simp [MapCell.allObjs, chainCell]

theorem chainMap_inv (k : Nat) (e : ChainEnd) : (chainMap k e).Inv := by
  refine ⟨⟨?_, ?_⟩, ?_⟩
  · simp [chainMap]
  · intro col hcol
    simp only [chainMap, List.mem_map] at hcol
    rcases hcol with ⟨i, _, rfl⟩
    simp [chainMap]
  · intro i hi j hj
    have hi' : i < chainWidth k e := by
      simpa [chainMap] using hi
    have hcol : (chainMap k e).map.get ⟨i, hi⟩ = [chainCell k e i] := by
      simp [chainMap, List.get_eq_getElem]
    have hj' : j = 0 := by
      rw [hcol] at hj
      simpa using hj
    subst hj'
    have hcell : ((chainMap k e).map.get ⟨i, hi⟩).get ⟨0, hj⟩ = chainCell k e i := by
      simp [chainMap, List.get_eq_getElem]
    rw [hcell]
    refine ⟨by simp [chainCell], by simp [chainCell], ?_⟩
    intro o ho
    simp only [chainCell] at ho
    unfold chainSolid at ho
    by_cases h0 : i = 0
    · rw [if_pos h0] at ho
      simp only [List.mem_singleton] at ho
      subst ho
      subst h0
      exact ⟨rfl, rfl, rfl⟩
    · rw [if_neg h0] at ho
      by_cases hk : i ≤ k
      · rw [if_pos hk] at ho
        simp only [List.mem_singleton] at ho
        subst ho
        exact ⟨rfl, rfl, rfl⟩
      · rw [if_neg hk] at ho
        cases e
        · simp at ho
        · simp only [List.mem_singleton] at ho
          subst ho
          exact ⟨rfl, rfl, rfl⟩
        · simp at ho

theorem chainSolid_ids (k : Nat) (e : ChainEnd) (i : Nat) (h : i < chainWidth k e) :
    ∀ x ∈ (chainSolid k e i).map GameObject.id, x = i + 1 := by
  intro x hx
  unfold chainSolid at hx
  by_cases h0 : i = 0
  · rw [if_pos h0] at hx
    simp [Player.new] at hx
    omega
  · rw [if_neg h0] at hx
    by_cases hk : i ≤ k
    · rw [if_pos hk] at hx
      simp [Block.new_block] at hx
      omega
    · rw [if_neg hk] at hx
      cases e
      · simp at hx
      · simp only [List.map_cons, List.map_nil, List.mem_singleton] at hx
        have : i = k + 1 := by
          simp [chainWidth] at h
          omega
        simp [Block.new_wall] at hx
        omega
      · simp at hx

theorem chainMap_idsUnique (k : Nat) (e : ChainEnd) : (chainMap k e).idsUnique := by
  unfold WorldMap.idsUnique
  rw [chainMap_objList, List.map_flatten, List.map_map]
  rw [List.nodup_flatten]
  constructor
  · intro l hl
    rcases List.mem_map.mp hl with ⟨i, _, rfl⟩
    show ((chainSolid k e i).map GameObject.id).Nodup
    unfold chainSolid
    by_cases h0 : i = 0
    · simp [h0]
    · by_cases hk : i ≤ k
      · simp [h0, hk]
      · simp only [if_neg h0, if_neg hk]
        cases e <;> simp
  · rw [List.pairwise_map]
    refine List.Pairwise.imp_of_mem ?_ (List.pairwise_lt_range _)
    intro i j hi hj hij
    intro x hx hx'
    have hiw : i < chainWidth k e := List.mem_range.mp hi
    have hjw : j < chainWidth k e := List.mem_range.mp hj
    have h1 := chainSolid_ids k e i hiw x hx
    have h2 := chainSolid_ids k e j hjw x hx'
    omega

theorem le_chainWidth (k : Nat) (e : ChainEnd) (i : Nat) (h : i ≤ k) :
    i < chainWidth k e := by
  cases e <;> simp only [chainWidth] <;> omega

theorem chainObj_mem (k : Nat) (e : ChainEnd) (i : Nat) (hik : i ≤ k) :
    chainObj i ∈ (chainMap k e).objList := by
  rw [chainMap_objList]
  refine List.mem_flatten.mpr ⟨chainSolid k e i,
    List.mem_map_of_mem _ (List.mem_range.mpr (le_chainWidth k e i hik)), ?_⟩
  rw [chainSolid_eq_chainObj k e i hik]
  simp

theorem chainObj_fields (i : Nat) :
    (chainObj i).id = i + 1 ∧ (chainObj i).x = (i : Int) ∧ (chainObj i).y = 0 ∧
      (chainObj i).layer = Layer.Solid ∧ (chainObj i).pushable = true := by
  unfold chainObj
  by_cases h0 : i = 0
  · subst h0
    simp [Player.new]
  · simp [h0, Block.new_block]

theorem chainMap_playerWF (k : Nat) (e : ChainEnd) : (chainMap k e).playerWF :=
  ⟨chainObj 0, chainObj_mem k e 0 (Nat.zero_le _), (chainObj_fields 0).1,
    (chainObj_fields 0).2.2.2.1⟩

theorem chainMap_player_pos (k : Nat) (e : ChainEnd) :
    (chainMap k e).get_player_pos = some (0, 0) := by
  have h := (WorldMap.findById_some_iff (chainMap k e) (chainMap_idsUnique k e) 1
    (chainObj 0)).mpr ⟨chainObj_mem k e 0 (Nat.zero_le _), (chainObj_fields 0).1⟩
  unfold WorldMap.get_player_pos
  rw [show (chainMap k e).playerId = 1 from rfl, h]
  simp [chainObj, Player.new]

theorem chainEntries_zero : chainEntries 0 = [(((0 : Int), (0 : Int)), 1)] := by
  decide

theorem chainEntries_succ (j : Nat) :
    chainEntries (j + 1)
      = chainEntries j ++ [((((j + 1 : Nat) : Int), (0 : Int)), j + 2)] := by
  simp [chainEntries, List.range_succ]

theorem chainEntries_snd_nodup (j : Nat) :
    ((chainEntries j).map Prod.snd).Nodup := by
  unfold chainEntries
  rw [List.map_map]
  have h : (Prod.snd ∘ fun (i : Nat) => (((i : Int), (0 : Int)), i + 1))
      = fun (i : Nat) => i + 1 := rfl
  rw [h]
  exact (List.nodup_range _).map (fun a b hab => by omega)

theorem containsKey_chainEntries_false (j t : Nat) (h : j < t) :
    containsKey (chainEntries j) (((t : Nat) : Int), 0) = false := by
  rw [containsKey, List.any_eq_false]
  intro ent hent
  simp only [chainEntries, List.mem_map, List.mem_range] at hent
  rcases hent with ⟨i, hi, rfl⟩
  simp only [decide_eq_true_eq, Prod.mk.injEq, not_and]
  intro hx
  exact absurd hx (by omega)

theorem chainEntries_entryOk (k : Nat) (e : ChainEnd) (j : Nat) (hj : j ≤ k) :
    ∀ ent ∈ chainEntries j, entryOk (chainMap k e) ent := by
  intro ent hent
  simp only [chainEntries, List.mem_map, List.mem_range] at hent
  rcases hent with ⟨i, hi, rfl⟩
  have hik : i ≤ k := by omega
  obtain ⟨h1, h2, h3, h4, _⟩ := chainObj_fields i
  exact ⟨chainObj i, chainObj_mem k e i hik, h1, h2, h3, h4⟩

theorem moveSolidCheck_nil (m : WorldMap) (dx dy : Int) (fuel : Nat)
    (tm : List ((Int × Int) × Nat)) :
    m.moveSolidCheck dx dy (fuel + 1) tm [] = some (true, tm) := rfl

theorem moveSolidCheck_cons (m : WorldMap) (dx dy : Int) (fuel : Nat)
    (tm : List ((Int × Int) × Nat)) (x y : Int) (rest : List (Int × Int)) :
    m.moveSolidCheck dx dy (fuel + 1) tm ((x, y) :: rest)
      = if containsKey tm (x + dx, y + dy) then
          m.moveSolidCheck dx dy fuel tm rest
        else if m.invalid (x + dx) (y + dy) then
          some (false, tm)
        else
          match m.view (x + dx) (y + dy) Layer.Solid with
          | some o =>
            if o.pushable then
              m.moveSolidCheck dx dy fuel (tm ++ [((x + dx, y + dy), o.id)])
                ((x + dx, y + dy) :: rest)
            else some (false, tm)
          | none => m.moveSolidCheck dx dy fuel tm rest := rfl

theorem chain_check (k : Nat) (e : ChainEnd) :
    ∀ (r j fuel : Nat), j + r = k → k - j + 2 ≤ fuel →
      (chainMap k e).moveSolidCheck 1 0 fuel (chainEntries j) [(((j : Nat) : Int), 0)]
        = some (chainResult e, chainEntries k) := by
  intro r
  induction r with
  | zero =>
    intro j fuel hjk hf
    have hj : j = k := by omega
    subst hj
    obtain ⟨f1, rfl⟩ : ∃ f1, fuel = f1 + 1 + 1 := ⟨fuel - 2, by omega⟩
    rw [moveSolidCheck_cons]
    rw [show ((j : Int) + 1) = ((j + 1 : Nat) : Int) from by push_cast; ring,
      show ((0 : Int) + 0) = (0 : Int) from by ring]
    have hck : ¬ (containsKey (chainEntries j) (((j + 1 : Nat) : Int), 0) = true) := by
      rw [containsKey_chainEntries_false j (j + 1) (by omega)]
      simp
    rw [if_neg hck]
    cases e with
    | edge =>
      have hinv : (chainMap j ChainEnd.edge).invalid ((j + 1 : Nat) : Int) 0 = true :=
        chainMap_invalid_true j ChainEnd.edge (j + 1) (by simp only [chainWidth]; omega)
      rw [if_pos (by rw [hinv])]
      rfl
    | wall =>
      have hinv : (chainMap j ChainEnd.wall).invalid ((j + 1 : Nat) : Int) 0 = false :=
        chainMap_invalid_false j ChainEnd.wall (j + 1) (by simp only [chainWidth]; omega)
      rw [if_neg (by rw [hinv]; simp)]
      have hview : (chainMap j ChainEnd.wall).view ((j + 1 : Nat) : Int) 0 Layer.Solid
          = some (Block.new_wall (j + 2) ((j + 1 : Nat) : Int) 0) := by
        rw [chainMap_view j ChainEnd.wall (j + 1) (by simp only [chainWidth]; omega)]
        unfold chainSolid
        rw [if_neg (by omega), if_neg (by omega)]
        rfl
      rw [hview]
      dsimp only
      rw [if_neg (by simp [Block.new_wall])]
      rfl
    | space =>
      have hinv : (chainMap j ChainEnd.space).invalid ((j + 1 : Nat) : Int) 0 = false :=
        chainMap_invalid_false j ChainEnd.space (j + 1) (by simp only [chainWidth]; omega)
      rw [if_neg (by rw [hinv]; simp)]
      have hview : (chainMap j ChainEnd.space).view ((j + 1 : Nat) : Int) 0 Layer.Solid
          = none := by
        rw [chainMap_view j ChainEnd.space (j + 1) (by simp only [chainWidth]; omega)]
        unfold chainSolid
        rw [if_neg (by omega), if_neg (by omega)]
        rfl
      rw [hview]
      dsimp only
      rw [moveSolidCheck_nil]
      rfl
  | succ r ih =>
    intro j fuel hjk hf
    have hjk' : j < k := by omega
    obtain ⟨f1, rfl⟩ : ∃ f1, fuel = f1 + 1 := ⟨fuel - 1, by omega⟩
    rw [moveSolidCheck_cons]
    rw [show ((j : Int) + 1) = ((j + 1 : Nat) : Int) from by push_cast; ring,
      show ((0 : Int) + 0) = (0 : Int) from by ring]
    have hck : ¬ (containsKey (chainEntries j) (((j + 1 : Nat) : Int), 0) = true) := by
      rw [containsKey_chainEntries_false j (j + 1) (by omega)]
      simp
    rw [if_neg hck]
    have hinv : (chainMap k e).invalid ((j + 1 : Nat) : Int) 0 = false :=
      chainMap_invalid_false k e (j + 1) (le_chainWidth k e (j + 1) (by omega))
    rw [if_neg (by rw [hinv]; simp)]
    have hview : (chainMap k e).view ((j + 1 : Nat) : Int) 0 Layer.Solid
        = some (chainObj (j + 1)) := by
      rw [chainMap_view k e (j + 1) (le_chainWidth k e (j + 1) (by omega))]
      rw [chainSolid_eq_chainObj k e (j + 1) (by omega)]
      rfl
    rw [hview]
    dsimp only
    rw [if_pos (by rw [(chainObj_fields (j + 1)).2.2.2.2])]
    rw [show (chainObj (j + 1)).id = j + 2 from (chainObj_fields (j + 1)).1]
    rw [← chainEntries_succ j]
    exact ih (j + 1) f1 (by omega) (by omega)

/-! ### Locating objects after a commit -/

theorem shiftObj_injective (d : Int × Int) : Function.Injective (shiftObj d) := by
  intro a b h
  cases a
  cases b
  simp only [shiftObj, GameObject.mk.injEq] at h ⊢
  exact ⟨h.1, by omega, by omega, h.2.2.2.1, h.2.2.2.2⟩

theorem forall₂_mem_left {α β : Type} {R : α → β → Prop} :
    ∀ {l₁ : List α} {l₂ : List β}, List.Forall₂ R l₁ l₂ →
      ∀ e ∈ l₁, ∃ b ∈ l₂, R e b := by
  intro l₁ l₂ h
  induction h with
  | nil => simp
  | cons hR _ ih =>
    intro e he
    rcases List.mem_cons.mp he with rfl | he
    · exact ⟨_, List.mem_cons_self _ _, hR⟩
    · rcases ih e he with ⟨b, hb, hbR⟩
      exact ⟨b, List.mem_cons_of_mem _ hb, hbR⟩

theorem forall₂_entry_ids :
    ∀ {entries : List ((Int × Int) × Nat)} {objs : List GameObject},
      List.Forall₂ entryMatches entries objs →
      objs.map GameObject.id = entries.map Prod.snd := by
  intro entries objs h
  induction h with
  | nil => rfl
  | cons hR _ ih =>
    simp only [List.map_cons, ih, hR.1]

/-- After a commit whose overall effect replaced the objects of `L` by
their shifted copies, the unique object with `o₀.id` in the post-state is
the shifted `o₀`. -/
theorem find_shifted (d : Int × Int) (m q : WorldMap) (L : List GameObject)
    (hu : m.idsUnique)
    (hcnt : ∀ a, q.objList.count a + L.count a
        = m.objList.count a + (L.map (shiftObj d)).count a)
    (hids : q.idsM = m.idsM)
    (hLn : (L.map GameObject.id).Nodup)
    (hLm : ∀ o ∈ L, o ∈ m.objList)
    (o₀ : GameObject) (ho₀ : o₀ ∈ L) :
    shiftObj d o₀ ∈ q.objList ∧
      ∀ b ∈ q.objList, b.id = o₀.id → b = shiftObj d o₀ := by
  have hqu : q.idsUnique := by
    rw [WorldMap.idsUnique_iff_idsM] at hu ⊢
    rw [hids]
    exact hu
  have hLnd : L.Nodup := List.Nodup.of_map _ hLn
  have hms : (L.map (shiftObj d)).count (shiftObj d o₀) = L.count o₀ :=
    List.count_map_of_injective L (shiftObj d) (shiftObj_injective d) o₀
  have hc1 : L.count o₀ = 1 := by
    have h1 : 0 < L.count o₀ := List.count_pos_iff.mpr ho₀
    have h2 : L.count o₀ ≤ 1 := List.nodup_iff_count_le_one.mp hLnd o₀
    omega
  have ho₀m : o₀ ∈ m.objList := hLm o₀ ho₀
  have hcnt₀ := hcnt (shiftObj d o₀)
  have hqmem : shiftObj d o₀ ∈ q.objList := by
    rcases eq_or_ne (shiftObj d o₀) o₀ with hso | hso
    · have hmc : m.objList.count (shiftObj d o₀) = 1 := by
        rw [hso]
        have h1 : 0 < m.objList.count o₀ := List.count_pos_iff.mpr ho₀m
        have h2 : m.objList.count o₀ ≤ 1 :=
          List.nodup_iff_count_le_one.mp (List.Nodup.of_map _ hu) o₀
        omega
      have hLc : L.count (shiftObj d o₀) = 1 := by
        rw [hso]
        exact hc1
      apply List.count_pos_iff.mp
      omega
    · have hLc : L.count (shiftObj d o₀) = 0 := by
        rw [List.count_eq_zero]
        intro hmem
        exact hso (List.inj_on_of_nodup_map hLn hmem ho₀ (shiftObj_id d o₀))
      have hmc : m.objList.count (shiftObj d o₀) = 0 := by
        rw [List.count_eq_zero]
        intro hmem
        exact hso (m.idsUnique_inj hu hmem ho₀m (shiftObj_id d o₀))
      apply List.count_pos_iff.mp
      omega
  refine ⟨hqmem, fun b hb hbid => ?_⟩
  exact q.idsUnique_inj hqu hb hqmem (by rw [hbid, shiftObj_id])

theorem chainMap_fuel (k : Nat) (e : ChainEnd) :
    k - 0 + 2 ≤ (chainMap k e).width.toNat * (chainMap k e).height.toNat + 2 := by
  have h1 : (chainMap k e).width.toNat = chainWidth k e := by
    simp [chainMap]
  have h2 : (chainMap k e).height.toNat = 1 := by
    simp [chainMap]
  rw [h1, h2]
  have := le_chainWidth k e k (le_refl k)
  omega

theorem chainMap_move_fail (k : Nat) (e : ChainEnd) (he : chainResult e = false) :
    (chainMap k e).move_solid (1, 0) DeltaFrame.new
      = some (false, chainMap k e, DeltaFrame.new) := by
  have hcheck := chain_check k e k 0
    ((chainMap k e).width.toNat * (chainMap k e).height.toNat + 2) (by omega)
    (chainMap_fuel k e)
  rw [chainEntries_zero, Nat.cast_zero] at hcheck
  unfold WorldMap.move_solid
  rw [chainMap_player_pos k e]
  dsimp only
  rw [show (chainMap k e).get_player_id = 1 from rfl]
  rw [hcheck, he]

theorem chainMap_move_space (k : Nat) :
    ∃ m' f', (chainMap k ChainEnd.space).move_solid (1, 0) DeltaFrame.new
        = some (true, m', f') ∧
      ∀ j, j ≤ k → m'.idPos (j + 1) = some (((j : Nat) : Int) + 1, 0) := by
  have hm := chainMap_inv k ChainEnd.space
  have hu := chainMap_idsUnique k ChainEnd.space
  have hnodup := chainEntries_snd_nodup k
  have hok := chainEntries_entryOk k ChainEnd.space k (le_refl k)
  have htg : ∀ ent ∈ chainEntries k,
      (chainMap k ChainEnd.space).invalid (ent.1.1 + 1) (ent.1.2 + 0) = false := by
    intro ent hent
    simp only [chainEntries, List.mem_map, List.mem_range] at hent
    rcases hent with ⟨i, hi, rfl⟩
    rw [show (((i : Int), (0 : Int)), i + 1).1.1 = (i : Int) from rfl,
      show (((i : Int), (0 : Int)), i + 1).1.2 = (0 : Int) from rfl]
    rw [show ((i : Int) + 1) = ((i + 1 : Nat) : Int) from by push_cast; ring,
      show ((0 : Int) + 0) = (0 : Int) from by ring]
    exact chainMap_invalid_false k ChainEnd.space (i + 1)
      (by simp only [chainWidth]; omega)
  obtain ⟨m', f', hcommit⟩ := moveSolidCommit_succeeds 1 0 (chainEntries k)
    (chainMap k ChainEnd.space) DeltaFrame.new hm hu hnodup hok htg
  obtain ⟨objs, hfa, hmem, hframe, hcount, hids, hinv', hu', hw', hh', hp'⟩ :=
    moveSolidCommit_spec 1 0 (chainEntries k) (chainMap k ChainEnd.space)
      DeltaFrame.new m' f' hm hu hnodup hcommit
  refine ⟨m', f', ?_, ?_⟩
  · have hcheck := chain_check k ChainEnd.space k 0
      ((chainMap k ChainEnd.space).width.toNat
        * (chainMap k ChainEnd.space).height.toNat + 2) (by omega)
      (chainMap_fuel k ChainEnd.space)
    rw [chainEntries_zero, Nat.cast_zero] at hcheck
    unfold WorldMap.move_solid
    rw [chainMap_player_pos k ChainEnd.space]
    dsimp only
    rw [show (chainMap k ChainEnd.space).get_player_id = 1 from rfl]
    rw [hcheck]
    rw [show chainResult ChainEnd.space = true from rfl]
    dsimp only
    rw [hcommit]
  · intro j hj
    have hentmem : (((j : Int), (0 : Int)), j + 1) ∈ chainEntries k := by
      simp only [chainEntries, List.mem_map, List.mem_range]
      exact ⟨j, by omega, rfl⟩
    obtain ⟨oj, hoj, hojmat⟩ := forall₂_mem_left hfa _ hentmem
    have hLn : (objs.map GameObject.id).Nodup := by
      rw [forall₂_entry_ids hfa]
      exact hnodup
    obtain ⟨hsmem, hsuniq⟩ := find_shifted (1, 0) (chainMap k ChainEnd.space) m'
      objs hu hcount hids hLn hmem oj hoj
    have hfind : m'.findById (j + 1) = some (shiftObj (1, 0) oj) := by
      apply (m'.findById_some_iff hu' (j + 1) _).mpr
      refine ⟨hsmem, ?_⟩
      rw [shiftObj_id, hojmat.1]
    unfold WorldMap.idPos
    rw [hfind]
    have hx : (shiftObj (1, 0) oj).x = (j : Int) + 1 := by
      rw [show (shiftObj (1, 0) oj).x = oj.x + 1 from rfl, hojmat.2.1]
    have hy : (shiftObj (1, 0) oj).y = 0 := by
      have h0 : oj.y = 0 := hojmat.2.2.1
      rw [show (shiftObj (1, 0) oj).y = oj.y + 0 from rfl, h0]
      ring
    simp only [Option.map_some']
    rw [hx, hy]

/-- C3: for every chain length `k`, pushing a straight line of `k`
consecutive pushable Solid blocks fails (returning `false`, mutating
nothing) when the line is terminated by a wall or by the grid edge, and
succeeds when the line is followed by open space, displacing the player
(id 1) and every block (ids `2..k+1`) by exactly one cell in the move
direction. -/
theorem push_chain_legality (k : Nat) :
    ((chainMap k ChainEnd.wall).move_solid (1, 0) DeltaFrame.new
        = some (false, chainMap k ChainEnd.wall, DeltaFrame.new)) ∧
    ((chainMap k ChainEnd.edge).move_solid (1, 0) DeltaFrame.new
        = some (false, chainMap k ChainEnd.edge, DeltaFrame.new)) ∧
    (∃ m' f', (chainMap k ChainEnd.space).move_solid (1, 0) DeltaFrame.new
        = some (true, m', f') ∧
      ∀ j, j ≤ k → m'.idPos (j + 1) = some (((j : Nat) : Int) + 1, 0)) :=
  ⟨chainMap_move_fail k ChainEnd.wall rfl, chainMap_move_fail k ChainEnd.edge rfl,
    chainMap_move_space k⟩

/-- C3 witness: the chain of length 2 — the wall- and edge-terminated
pushes fail, the open push moves ids 1, 2, 3 one cell right. -/
theorem push_chain_legality_witness :
    ((chainMap 2 ChainEnd.wall).move_solid (1, 0) DeltaFrame.new
        = some (false, chainMap 2 ChainEnd.wall, DeltaFrame.new)) ∧
    ((chainMap 2 ChainEnd.edge).move_solid (1, 0) DeltaFrame.new
        = some (false, chainMap 2 ChainEnd.edge, DeltaFrame.new)) ∧
    (∃ m' f', (chainMap 2 ChainEnd.space).move_solid (1, 0) DeltaFrame.new
        = some (true, m', f') ∧
      ∀ j, j ≤ 2 → m'.idPos (j + 1) = some (((j : Nat) : Int) + 1, 0)) :=
  push_chain_legality 2

/-! ### The check phase of `move_solid` (C1) -/

theorem WorldMap.view_some (m : WorldMap) (x y : Int) (layer : Layer) (o : GameObject)
    (h : m.view x y layer = some o) :
    m.invalid x y = false ∧ o ∈ (m.getCell x y).getL layer := by
  unfold WorldMap.view at h
  by_cases hv : m.invalid x y
  · simp [hv] at h
  · have hv' : m.invalid x y = false := by simpa using hv
    rw [if_neg hv] at h
    refine ⟨hv', ?_⟩
    unfold MapCell.view at h
    rcases List.getLast?_eq_some_iff.mp h with ⟨ys, hys⟩
    rw [hys]
    exact List.mem_append.mpr (Or.inr (by simp))

theorem containsKey_eq_false_iff (tm : List ((Int × Int) × Nat)) (p : Int × Int) :
    containsKey tm p = false ↔ ∀ e ∈ tm, e.1 ≠ p := by
  unfold containsKey
  rw [List.any_eq_false]
  simp

theorem moveSolidCheck_spec (m : WorldMap) (hm : m.Inv) (dx dy : Int) :
    ∀ (fuel : Nat) (tm : List ((Int × Int) × Nat)) (tc : List (Int × Int))
      (b : Bool) (tm' : List ((Int × Int) × Nat)),
      (tm.map Prod.fst).Nodup → (∀ e ∈ tm, entryOk m e) →
      m.moveSolidCheck dx dy fuel tm tc = some (b, tm') →
      (tm'.map Prod.fst).Nodup ∧ (∀ e ∈ tm', entryOk m e) ∧ ∃ ext, tm' = tm ++ ext := by
  intro fuel
  induction fuel with
  | zero =>
    intro tm tc b tm' _ _ h
    simp [WorldMap.moveSolidCheck] at h
  | succ fuel ih =>
    intro tm tc b tm' hkeys hok h
    cases tc with
    | nil =>
      rw [moveSolidCheck_nil] at h
      simp only [Option.some.injEq, Prod.mk.injEq] at h
      rw [← h.2]
      exact ⟨hkeys, hok, [], by simp⟩
    | cons xy rest =>
      rcases xy with ⟨x, y⟩
      rw [moveSolidCheck_cons] at h
      by_cases hck : containsKey tm (x + dx, y + dy) = true
      · rw [if_pos hck] at h
        exact ih tm rest b tm' hkeys hok h
      · rw [if_neg hck] at h
        by_cases hv : m.invalid (x + dx) (y + dy) = true
        · rw [if_pos hv] at h
          simp only [Option.some.injEq, Prod.mk.injEq] at h
          rw [← h.2]
          exact ⟨hkeys, hok, [], by simp⟩
        · rw [if_neg hv] at h
          cases hview : m.view (x + dx) (y + dy) Layer.Solid with
          | none =>
            rw [hview] at h
            exact ih tm rest b tm' hkeys hok h
          | some o =>
            rw [hview] at h
            dsimp only at h
            by_cases hpush : o.pushable = true
            · rw [if_pos hpush] at h
              have hv' : m.invalid (x + dx) (y + dy) = false := by simpa using hv
              obtain ⟨-, hocell⟩ := m.view_some (x + dx) (y + dy) Layer.Solid o hview
              obtain ⟨hox, hoy, hol⟩ :=
                m.inv_getCell hm (x + dx) (y + dy) hv' Layer.Solid o hocell
              have hom : o ∈ m.objList :=
                m.mem_objList_of_mem_getL hm.1 _ _ hv' Layer.Solid o hocell
              have hok' : ∀ e ∈ tm ++ [((x + dx, y + dy), o.id)], entryOk m e := by
                intro e he
                rcases List.mem_append.mp he with he | he
                · exact hok e he
                · simp only [List.mem_singleton] at he
                  subst he
                  exact ⟨o, hom, rfl, hox, hoy, hol⟩
              have hkeys' : ((tm ++ [((x + dx, y + dy), o.id)]).map Prod.fst).Nodup := by
                rw [List.map_append, List.nodup_append]
                refine ⟨hkeys, by simp, ?_⟩
                intro a ha hb
                simp only [List.map_cons, List.map_nil, List.mem_singleton] at hb
                subst hb
                rcases List.mem_map.mp ha with ⟨e, he, hea⟩
                exact (containsKey_eq_false_iff tm (x + dx, y + dy)).mp
                  (by simpa using hck) e he hea
              obtain ⟨hk2, ho2, ext, hext⟩ := ih _ _ b tm' hkeys' hok' h
              refine ⟨hk2, ho2, [((x + dx, y + dy), o.id)] ++ ext, ?_⟩
              rw [hext]
              simp
            · rw [if_neg hpush] at h
              simp only [Option.some.injEq, Prod.mk.injEq] at h
              rw [← h.2]
              exact ⟨hkeys, hok, [], by simp⟩

theorem entries_ids_nodup (m : WorldMap) (hu : m.idsUnique)
    (tm : List ((Int × Int) × Nat))
    (hkeys : (tm.map Prod.fst).Nodup) (hok : ∀ e ∈ tm, entryOk m e) :
    (tm.map Prod.snd).Nodup := by
  have hk : tm.Pairwise (fun a b => a.1 ≠ b.1) := List.pairwise_map.mp hkeys
  apply List.pairwise_map.mpr
  refine List.Pairwise.imp_of_mem ?_ hk
  intro e₁ e₂ h₁ h₂ hne heq
  obtain ⟨o₁, ho₁m, h₁id, h₁x, h₁y, -⟩ := hok e₁ h₁
  obtain ⟨o₂, ho₂m, h₂id, h₂x, h₂y, -⟩ := hok e₂ h₂
  have hoo : o₁ = o₂ := m.idsUnique_inj hu ho₁m ho₂m (by rw [h₁id, heq, ← h₂id])
  apply hne
  have hp : (e₁.1.1, e₁.1.2) = (e₂.1.1, e₂.1.2) := by
    rw [← h₁x, ← h₁y, hoo, h₂x, h₂y]
  simpa using hp

/-! ### Reverting a frame of motion deltas (C1) -/

theorem revert_motions (dx dy : Int) :
    ∀ (entries : List ((Int × Int) × Nat)) (objs : List GameObject),
      List.Forall₂ entryMatches entries objs →
      ∀ (m q : WorldMap),
      m.Inv → m.idsUnique →
      (objs.map GameObject.id).Nodup →
      (∀ o ∈ objs, o ∈ m.objList) →
      q.Inv → q.idsM = m.idsM →
      q.width = m.width → q.height = m.height →
      (∀ a, q.objList.count a + objs.count a
          = m.objList.count a + (objs.map (shiftObj (dx, dy))).count a) →
      ∃ ds q', revertDeltas (entries.map (motionOf (dx, dy))) q = some (ds, q') ∧
        (∀ a, q'.objList.count a = m.objList.count a) ∧
        q'.Inv ∧ q'.idsM = m.idsM ∧ q'.width = m.width ∧ q'.height = m.height ∧
        q'.playerId = q.playerId := by
  intro entries objs hfa
  induction hfa with
  | nil =>
    intro m q hm hu hLn hLm hq hqi hqw hqh hcnt
    refine ⟨[], q, rfl, ?_, hq, hqi, hqw, hqh, rfl⟩
    intro a
    have h0 := hcnt a
    simpa using h0
  | @cons e o es os hmat hfa2 ih =>
    intro m q hm hu hLn hLm hq hqi hqw hqh hcnt
    obtain ⟨hoid, hox, hoy, hol⟩ := hmat
    obtain ⟨hsmem, hsuniq⟩ := find_shifted (dx, dy) m q (o :: os) hu hcnt hqi hLn hLm o
      (List.mem_cons_self _ _)
    have hcellq := q.mem_cell_of_mem_objList hq _ hsmem
    have hsx : (shiftObj (dx, dy) o).x = e.1.1 + dx := by
      rw [show (shiftObj (dx, dy) o).x = o.x + dx from rfl, hox]
    have hsy : (shiftObj (dx, dy) o).y = e.1.2 + dy := by
      rw [show (shiftObj (dx, dy) o).y = o.y + dy from rfl, hoy]
    have hsl : (shiftObj (dx, dy) o).layer = Layer.Solid := by
      rw [shiftObj_layer, hol]
    have hsid : (shiftObj (dx, dy) o).id = e.2 := by
      rw [shiftObj_id, hoid]
    rw [hsx, hsy, hsl] at hcellq
    obtain ⟨o', ho'⟩ := q.take_id_fst_some (e.1.1 + dx) (e.1.2 + dy) Layer.Solid e.2
      hcellq.1 ⟨shiftObj (dx, dy) o, hcellq.2, hsid⟩
    rcases hpair : q.take_id (e.1.1 + dx) (e.1.2 + dy) Layer.Solid e.2 with ⟨fst, q₁⟩
    rw [hpair] at ho'
    simp only at ho'
    subst ho'
    obtain ⟨hvq, ho'id, ho'cell, hcnt₁⟩ :=
      WorldMap.take_id_spec q (e.1.1 + dx) (e.1.2 + dy) Layer.Solid e.2 o' q₁ hq.1 hpair
    have ho'q : o' ∈ q.objList :=
      q.mem_objList_of_mem_getL hq.1 _ _ hvq Layer.Solid o' ho'cell
    have ho's : o' = shiftObj (dx, dy) o := hsuniq o' ho'q (by rw [ho'id, ← hsid, shiftObj_id])
    subst ho's
    have hq₁ : q₁.Inv := by
      have h2 := WorldMap.take_id_inv q (e.1.1 + dx) (e.1.2 + dy) Layer.Solid e.2 hq
      rw [hpair] at h2
      simpa using h2
    have hd₁ : q₁.width = q.width ∧ q₁.height = q.height ∧ q₁.playerId = q.playerId := by
      have h2 := WorldMap.take_id_dims q (e.1.1 + dx) (e.1.2 + dy) Layer.Solid e.2
      rw [hpair] at h2
      simpa using h2
    have homem : o ∈ m.objList := hLm o (List.mem_cons_self _ _)
    have hvo : m.invalid o.x o.y = false := (m.mem_cell_of_mem_objList hm o homem).1
    have hps : (q₁.put_quiet o).isSome := by
      rw [WorldMap.put_quiet_isSome_iff, invalid_eq_of_dims m q₁
        (by rw [hd₁.1, hqw]) (by rw [hd₁.2.1, hqh])]
      exact hvo
    obtain ⟨q₂, hput⟩ := Option.isSome_iff_exists.mp hps
    have hq₂ : q₂.Inv := WorldMap.put_quiet_inv q₁ q₂ o hq₁ hput
    have hcnt₂ := WorldMap.put_quiet_count q₁ q₂ o hq₁.1 hput
    have hswap : ∀ a, q₂.objList.count a + (if a = shiftObj (dx, dy) o then 1 else 0)
        = q.objList.count a + (if a = o then 1 else 0) := by
      intro a
      have h1 := hcnt₁ a
      have h2 := hcnt₂ a
      omega
    have hids₂ : q₂.idsM = q.idsM :=
      idsM_eq_of_swap q q₂ (shiftObj (dx, dy) o) o (by rw [shiftObj_id]) hswap
    have hd₂ := WorldMap.put_quiet_dims q₁ q₂ o hput
    have hcnt' : ∀ a, q₂.objList.count a + os.count a
        = m.objList.count a + (os.map (shiftObj (dx, dy))).count a := by
      intro a
      have h0 := hcnt a
      have h1 := hswap a
      rw [count_cons_eq] at h0
      simp only [List.map_cons] at h0
      rw [count_cons_eq] at h0
      omega
    have hLn' : (os.map GameObject.id).Nodup := by
      simp only [List.map_cons, List.nodup_cons] at hLn
      exact hLn.2
    have hLm' : ∀ b ∈ os, b ∈ m.objList := fun b hb => hLm b (List.mem_cons_of_mem _ hb)
    obtain ⟨ds', q', hrec, hcntf, hqf, hidsf, hwf, hhf, hpf⟩ := ih m q₂ hm hu hLn' hLm'
      hq₂ (by rw [hids₂, hqi]) (by rw [hd₂.1, hd₁.1, hqw]) (by rw [hd₂.2.1, hd₁.2.1, hqh])
      hcnt'
    have hrev : Delta.revert (motionOf (dx, dy) e) q = some (motionOf (dx, dy) e, q₂) := by
      simp only [motionOf, Delta.revert]
      rw [hpair]
      dsimp only
      rw [show ((shiftObj (dx, dy) o).shift_pos (-dx, -dy) DeltaFrame.new).1
          = shiftObj (-dx, -dy) (shiftObj (dx, dy) o) from rfl, shiftObj_inv, hput]
    refine ⟨motionOf (dx, dy) e :: ds', q', ?_, hcntf, hqf, hidsf, hwf, hhf, ?_⟩
    · simp only [List.map_cons, revertDeltas]
      rw [hrev]
      dsimp only
      rw [hrec]
    · rw [hpf, hd₂.2.2, hd₁.2.2]

theorem move_solid_true_spec (m : WorldMap) (dx dy : Int) (f : DeltaFrame)
    (m' : WorldMap) (f' : DeltaFrame)
    (hm : m.Inv) (hu : m.idsUnique) (hp : m.playerWF)
    (h : m.move_solid (dx, dy) f = some (true, m', f')) :
    ∃ (entries : List ((Int × Int) × Nat)) (objs : List GameObject),
      entries ≠ [] ∧
      List.Forall₂ entryMatches entries objs ∧
      (objs.map GameObject.id).Nodup ∧
      (∀ o ∈ objs, o ∈ m.objList) ∧
      f'.deltas = f.deltas ++ entries.map (motionOf (dx, dy)) ∧
      (∀ a, m'.objList.count a + objs.count a
          = m.objList.count a + (objs.map (shiftObj (dx, dy))).count a) ∧
      m'.idsM = m.idsM ∧ m'.Inv ∧ m'.idsUnique ∧ m'.playerWF ∧
      m'.width = m.width ∧ m'.height = m.height ∧ m'.playerId = m.playerId := by
  obtain ⟨op, hopm, hopid, hopl⟩ := hp
  have hfind : m.findById m.playerId = some op :=
    (m.findById_some_iff hu m.playerId op).mpr ⟨hopm, hopid⟩
  unfold WorldMap.move_solid at h
  rw [show m.get_player_pos = some (op.x, op.y) from by
    rw [WorldMap.get_player_pos, hfind]; rfl] at h
  dsimp only at h
  have hok0 : ∀ e ∈ [(((op.x, op.y) : Int × Int), m.get_player_id)], entryOk m e := by
    intro e he
    simp only [List.mem_singleton] at he
    subst he
    exact ⟨op, hopm, hopid, rfl, rfl, hopl⟩
  have hkeys0 : (([(((op.x, op.y) : Int × Int), m.get_player_id)]).map Prod.fst).Nodup := by
    simp
  split at h
  · simp at h
  · simp at h
  · next tm hcheck =>
    split at h
    · simp at h
    · next mm ff hcommit =>
      simp only [Option.some.injEq, Prod.mk.injEq, true_and] at h
      obtain ⟨hm'eq, hf'eq⟩ := h
      subst hm'eq
      subst hf'eq
      obtain ⟨hkeys, hok, ext, hext⟩ :=
        moveSolidCheck_spec m hm dx dy _ _ _ true tm hkeys0 hok0 hcheck
      have hne : tm ≠ [] := by
        rw [hext]
        simp
      have hsnd : (tm.map Prod.snd).Nodup := entries_ids_nodup m hu tm hkeys hok
      obtain ⟨objs, hfa, hsub, hdel, hcnt, hids, hinv, hu', hw, hh, hpid⟩ :=
        moveSolidCommit_spec dx dy tm m f mm ff hm hu hsnd hcommit
      have hobjsn : (objs.map GameObject.id).Nodup := by
        rw [forall₂_entry_ids hfa]
        exact hsnd
      have hmem' : ∀ b ∈ mm.objList, b ∈ m.objList ∨ b ∈ objs.map (shiftObj (dx, dy)) := by
        intro b hb
        by_contra hcon
        push_neg at hcon
        have h1 : m.objList.count b = 0 := List.count_eq_zero.mpr hcon.1
        have h2 : (objs.map (shiftObj (dx, dy))).count b = 0 :=
          List.count_eq_zero.mpr hcon.2
        have h3 : 0 < mm.objList.count b := List.count_pos_iff.mpr hb
        have h4 := hcnt b
        omega
      have hpmem : m.playerId ∈ mm.idsM := by
        rw [hids]
        exact Multiset.mem_map.mpr ⟨op, Multiset.mem_coe.mpr hopm, hopid⟩
      obtain ⟨b, hbm, hbid⟩ := Multiset.mem_map.mp hpmem
      have hbmm : b ∈ mm.objList := Multiset.mem_coe.mp hbm
      have hbl : b.layer = Layer.Solid := by
        rcases hmem' b hbmm with hb | hb
        · rw [m.idsUnique_inj hu hb hopm (by rw [hbid, hopid]), hopl]
        · rcases List.mem_map.mp hb with ⟨o, hoobjs, hbe⟩
          obtain ⟨e, -, -, -, -, hmole⟩ := forall₂_mem_right hfa o hoobjs
          rw [← hbe, shiftObj_layer, hmole]
      refine ⟨tm, objs, hne, hfa, hobjsn, hsub, hdel, hcnt, hids, hinv, hu',
        ⟨b, hbmm, by rw [hbid, hpid], hbl⟩, hw, hh, hpid⟩

theorem runUndos_succ_right : ∀ (n : Nat) (q : WorldMap) (s : UndoStack),
    runUndos (n + 1) q s =
      match runUndos n q s with
      | none => none
      | some (q₁, s₁) =>
        match s₁.pop q₁ with
        | none => none
        | some (s₂, q₂) => some (q₂, s₂) := by
  intro n
  induction n with
  | zero =>
    intro q s
    simp only [runUndos]
  | succ n ih =>
    intro q s
    rw [show n + 1 + 1 = (n + 1) + 1 from rfl]
    simp only [runUndos]
    cases hp : s.pop q with
    | none => rfl
    | some r =>
      rcases r with ⟨s₂, q₂⟩
      exact ih q₂ s₂

theorem runMoves_undo (maxd : Nat) :
    ∀ (ds : List (Int × Int)) (m : WorldMap) (s : UndoStack) (mN : WorldMap)
      (sN : UndoStack),
      m.Inv → m.idsUnique → m.playerWF →
      s.max_depth = maxd → s.size + ds.length ≤ maxd →
      runMoves ds m s = some (mN, sN) →
      ∀ q : WorldMap, q.Inv →
        (∀ a, q.objList.count a = mN.objList.count a) →
        q.idsM = mN.idsM → q.width = mN.width → q.height = mN.height →
        ∃ q', runUndos ds.length q sN = some (q', s) ∧
          (∀ a, q'.objList.count a = m.objList.count a) ∧ q'.Inv ∧
          q'.idsM = m.idsM ∧ q'.width = m.width ∧ q'.height = m.height := by
  intro ds
  induction ds with
  | nil =>
    intro m s mN sN hm hu hp hmd hsz hrun q hq hqc hqi hqw hqh
    simp only [runMoves, Option.some.injEq, Prod.mk.injEq] at hrun
    obtain ⟨h1, h2⟩ := hrun
    subst h1
    subst h2
    exact ⟨q, rfl, hqc, hq, hqi, hqw, hqh⟩
  | cons d ds ih =>
    intro m s mN sN hm hu hp hmd hsz hrun q hq hqc hqi hqw hqh
    rcases d with ⟨dx, dy⟩
    simp only [runMoves] at hrun
    split at hrun
    next m₁ f₁ hms =>
      obtain ⟨entries, objs, hne, hfa, hon, hsub, hdel, hcnt, hids, hinv, hu₁, hp₁,
        hw₁, hh₁, hpid₁⟩ :=
        move_solid_true_spec m dx dy DeltaFrame.new m₁ f₁ hm hu hp hms
      have hdel' : f₁.deltas = entries.map (motionOf (dx, dy)) := hdel
      have htriv : f₁.trivial = false := by
        rw [DeltaFrame.trivial, hdel']
        cases entries with
        | nil => exact absurd rfl hne
        | cons a l => rfl
      simp only [htriv, Bool.false_eq_true, if_false] at hrun
      have hlt : s.size ≠ s.max_depth := by
        simp only [List.length_cons] at hsz
        omega
      have hpush : s.push f₁ = ⟨f₁ :: s.stack, s.max_depth, s.size + 1⟩ := by
        rw [UndoStack.push, if_neg hlt]
      obtain ⟨q₁, hq₁run, hq₁c, hq₁inv, hq₁ids, hq₁w, hq₁h⟩ :=
        ih m₁ (s.push f₁) mN sN hinv hu₁ hp₁
          (by rw [hpush]; exact hmd)
          (by rw [hpush]; dsimp only; simp only [List.length_cons] at hsz; omega)
          hrun q hq hqc hqi hqw hqh
      obtain ⟨ds', q', hrev, hq'c, hq'inv, hq'ids, hq'w, hq'h, hq'pid⟩ :=
        revert_motions dx dy entries objs hfa m q₁ hm hu hon hsub hq₁inv
          (by rw [hq₁ids, hids]) (by rw [hq₁w, hw₁]) (by rw [hq₁h, hh₁])
          (by
            intro a
            have h1 := hcnt a
            have h2 := hq₁c a
            omega)
      have hfrev : f₁.revert q₁ = some (⟨ds'⟩, q') := by
        rw [DeltaFrame.revert, hdel', hrev]
      have hpop : (s.push f₁).pop q₁ = some (s, q') := by
        rw [hpush, UndoStack.pop]
        rw [if_pos (by dsimp only; omega : (⟨f₁ :: s.stack, s.max_depth, s.size + 1⟩ :
          UndoStack).size > 0)]
        dsimp only
        rw [hfrev]
        rfl
      refine ⟨q', ?_, hq'c, hq'inv, hq'ids, hq'w, hq'h⟩
      rw [show (((dx, dy) : Int × Int) :: ds).length = ds.length + 1 from rfl]
      rw [runUndos_succ_right, hq₁run]
      dsimp only
      rw [hpop]
    all_goals simp at hrun

theorem runMoves_wf : ∀ (ds : List (Int × Int)) (m : WorldMap) (s : UndoStack)
    (mN : WorldMap) (sN : UndoStack),
    m.Inv → m.idsUnique → m.playerWF →
    runMoves ds m s = some (mN, sN) → mN.Inv ∧ mN.idsUnique ∧ mN.playerWF := by
  intro ds
  induction ds with
  | nil =>
    intro m s mN sN hm hu hp h
    simp only [runMoves, Option.some.injEq, Prod.mk.injEq] at h
    obtain ⟨h1, h2⟩ := h
    subst h1
    subst h2
    exact ⟨hm, hu, hp⟩
  | cons d ds ih =>
    intro m s mN sN hm hu hp h
    rcases d with ⟨dx, dy⟩
    simp only [runMoves] at h
    split at h
    next m₁ f₁ hms =>
      obtain ⟨-, -, -, -, -, -, -, -, -, hinv, hu₁, hp₁, -, -, -⟩ :=
        move_solid_true_spec m dx dy DeltaFrame.new m₁ f₁ hm hu hp hms
      exact ih m₁ _ mN sN hinv hu₁ hp₁ h
    all_goals simp at h

/-- C1 counterexample to the unamended claim: on the 3×1 grid `tinyMap`
with `max_depth = 1`, two successful right-moves (each pushing its
non-trivial frame) followed by two undos do *not* restore the pre-move
grid: the oldest frame was discarded at the second push, so the player's
id-to-position entry ends at `(1,0)` instead of `(0,0)`. -/
theorem undo_inverse_law_counterexample :
    (runMoves [(1, 0), (1, 0)] tinyMap (UndoStack.new 1)).isSome = true ∧
    ((runMoves [(1, 0), (1, 0)] tinyMap (UndoStack.new 1)).bind
        (fun r => runUndos 2 r.1 r.2)).map
        (fun r => decide (r.1.idPos 1 = tinyMap.idPos 1)) = some false := by
  constructor
  · decide
  · decide

/-- **C1** (amended: the move count must not exceed `max_depth`, the run
starts from a fresh `UndoStack`, and the initial grid is well formed —
shape/position-cell consistency, globally unique ids and a valid player
back-pointer): after a sequence `ds` of successful `move_solid` calls,
each recording its deltas into a non-trivial frame pushed onto the undo
stack, `ds.length` `UndoStack::pop` calls succeed, empty the stack, and
restore the grid to its pre-move state: the full object multiset
(hence every object's position) and the id-to-position mapping equal
the original ones. -/
theorem undo_inverse_law (maxd : Nat) (ds : List (Int × Int)) (m mN : WorldMap)
    (sN : UndoStack)
    (hm : m.Inv) (hu : m.idsUnique) (hp : m.playerWF)
    (hn : ds.length ≤ maxd)
    (hrun : runMoves ds m (UndoStack.new maxd) = some (mN, sN)) :
    ∃ q', runUndos ds.length mN sN = some (q', UndoStack.new maxd) ∧
      q'.objM = m.objM ∧ ∀ i, q'.idPos i = m.idPos i := by
  obtain ⟨hmN, huN, hpN⟩ := runMoves_wf ds m (UndoStack.new maxd) mN sN hm hu hp hrun
  obtain ⟨q', hq'run, hq'c, hq'inv, hq'ids, hq'w, hq'h⟩ :=
    runMoves_undo maxd ds m (UndoStack.new maxd) mN sN hm hu hp rfl
      (show 0 + ds.length ≤ maxd by omega) hrun mN hmN (fun a => rfl) rfl rfl rfl
  have hobjM : q'.objM = m.objM := objM_ext_of_count m q' hq'c
  have hq'u : q'.idsUnique := by
    rw [WorldMap.idsUnique_iff_idsM] at hu ⊢
    rw [hq'ids]
    exact hu
  exact ⟨q', hq'run, hobjM, idPos_congr m q' hu hq'u hobjM⟩

/-- C1 witness: on `tinyMap` with `max_depth = 2`, two successful
right-moves followed by two undos restore the original grid exactly. -/
theorem undo_inverse_law_witness :
    tinyMap.Inv ∧ tinyMap.idsUnique ∧ tinyMap.playerWF ∧
    ([((1 : Int), (0 : Int)), (1, 0)].length ≤ 2) ∧
    ∃ (mN : WorldMap) (sN : UndoStack),
      runMoves [(1, 0), (1, 0)] tinyMap (UndoStack.new 2) = some (mN, sN) ∧
      ∃ q', runUndos 2 mN sN = some (q', UndoStack.new 2) ∧
        q'.objM = tinyMap.objM ∧ ∀ i, q'.idPos i = tinyMap.idPos i := by
  refine ⟨by decide, by decide, by decide, by decide, ?_⟩
  rcases hr : runMoves [((1 : Int), (0 : Int)), (1, 0)] tinyMap (UndoStack.new 2) with
    _ | ⟨mN, sN⟩
  · exact absurd hr (by decide)
  · refine ⟨mN, sN, rfl, ?_⟩
    exact undo_inverse_law 2 [(1, 0), (1, 0)] tinyMap mN sN (by decide) (by decide)
      (by decide) (by decide) hr

end Sokoban
